import Mathlib

/-!
Verification of the Minesweeper board model of `sapper.cpp`.

The definitions below are a shallow embedding of the game-logic layer of the
source file (classes `ICellContent`/`MineContent`/`NumberContent`/`EmptyContent`,
`ICellState`/`ClosedState`/`OpenedState`/`FlaggedState`, `Game`,
`DefaultBoardGenerator`).  C++ `float` session timers are modelled as `Rat`;
the `rand()` stream feeding `DefaultBoardGenerator::generate` is modelled as an
explicit list of candidate `(Nat x Nat)` draws, each reduced `% W` / `% H`
exactly as the source does.  The unbounded recursion of `Game::floodFill` is
modelled with a fuel parameter; the fuel `W*H + 1` used by `Game.floodFill`
strictly exceeds the number of non-open cells, and every recursive call in the
source happens immediately after a closed cell is opened, so the fuel is never
exhausted on a well-formed board (this is re-proved below as part of the flood
fill characterisation, which never reaches the fuel-0 branch).
-/

set_option maxHeartbeats 2000000
set_option maxRecDepth 100000

namespace Sapper

/-- Content layer: `MineContent` or `NumberContent n`.  The source's
`EmptyContent` is identified with `Number 0`: `CellContentFactory::makeNumber`
returns `EmptyContent` exactly for `n <= 0`, `EmptyContent::number() == 0`, and
`NumberContent::isEmpty()` tests `n_ == 0`. -/
inductive CellContent where
  | Mine : CellContent
  | Number : Nat → CellContent
deriving DecidableEq

/-- `ICellContent::isMine`. -/
def CellContent.isMine : CellContent → Bool
  | .Mine => true
  | .Number _ => false

/-- `ICellContent::number` (`-1` for a mine, `0..8` otherwise). -/
def CellContent.numberVal : CellContent → Int
  | .Mine => -1
  | .Number n => (n : Int)

/-- `ICellContent::isEmpty`. -/
def CellContent.isEmpty : CellContent → Bool
  | .Mine => false
  | .Number n => n == 0

/-- State layer: `ClosedState` / `OpenedState` / `FlaggedState`. -/
inductive CellState where
  | Closed : CellState
  | Opened : CellState
  | Flagged : CellState
deriving DecidableEq

/-- `ICellState::isOpen`. -/
def CellState.isOpen : CellState → Bool
  | .Opened => true
  | _ => false

/-- `ICellState::isFlagged`. -/
def CellState.isFlagged : CellState → Bool
  | .Flagged => true
  | _ => false

/-- `struct Cell`: a content together with a state. -/
structure Cell where
  content : CellContent
  state : CellState
deriving DecidableEq

/-- `DefaultCellFactory::makeInitialCell`: empty content, closed state. -/
def initialCell : Cell := ⟨CellContent.Number 0, CellState.Closed⟩

/-- The `Game` class: board dimensions, session flags, timers and the field.
`float` members are modelled as `Rat`. -/
structure Game where
  W : Nat
  H : Nat
  MINES : Nat
  gameOver : Bool := false
  win : Bool := false
  firstClick : Bool := true
  explosion : Bool := false
  explosionTimer : Rat := 0
  timerRunning : Bool := false
  timeElapsed : Rat := 0
  field : List (List Cell) := []
deriving DecidableEq

/-- Read `field[y][x]`.  All source accesses are in bounds (guarded by the
flood-fill bounds check or by the caller contract); out-of-range reads default
to `initialCell`. -/
def Game.cellAt (g : Game) (x y : Int) : Cell :=
  (g.field.getD y.toNat []).getD x.toNat initialCell

/-- The bounds check `nx >= 0 && nx < W && ny >= 0 && ny < H` of the source. -/
def Game.inBounds (g : Game) (x y : Int) : Bool :=
  decide (0 ≤ x) && decide (x < (g.W : Int)) && decide (0 ≤ y) && decide (y < (g.H : Int))

/-- Write a single cell of a grid (row `y`, column `x`). -/
def setGrid (f : List (List Cell)) (x y : Nat) (c : Cell) : List (List Cell) :=
  f.set y ((f.getD y []).set x c)

/-- Write `field[y][x] = c`. -/
def Game.setCell (g : Game) (x y : Int) (c : Cell) : Game :=
  { g with field := setGrid g.field x.toNat y.toNat c }

/-- `field[y][x].state = ...` (state switching; the content is kept). -/
def Game.setState (g : Game) (x y : Int) (s : CellState) : Game :=
  g.setCell x y { g.cellAt x y with state := s }

/-- `field[y][x].content = ...` (content assignment; the state is kept). -/
def Game.setContent (g : Game) (x y : Int) (c : CellContent) : Game :=
  g.setCell x y { g.cellAt x y with content := c }

/-- Well-formed field: `H` rows of `W` cells each. -/
def Game.WF (g : Game) : Prop :=
  g.field.length = g.H ∧ ∀ i, i < g.H → (g.field.getD i []).length = g.W

instance (g : Game) : Decidable g.WF := by
  unfold Game.WF; infer_instance

/-- `Game::resetField`: rebuild an all-closed all-empty field and clear every
session flag and timer. -/
def Game.resetField (g : Game) : Game :=
  { g with
    field := List.replicate g.H (List.replicate g.W initialCell),
    gameOver := false, win := false, firstClick := true,
    explosion := false, explosionTimer := 0,
    timerRunning := false, timeElapsed := 0 }

/-- The `Game` constructor: store `(W, H, MINES)` and call `resetField`. -/
def mkGame (w h m : Nat) : Game :=
  Game.resetField { W := w, H := h, MINES := m }

/-- `Game::startTimerIfNeeded`. -/
def Game.startTimerIfNeeded (g : Game) : Game :=
  if g.timerRunning then g else { g with timerRunning := true, timeElapsed := 0 }

/-- `Game::stopTimer`. -/
def Game.stopTimer (g : Game) : Game := { g with timerRunning := false }

/-- `Game::update(dt)`: explosion countdown, then game timer. -/
def Game.update (g : Game) (dt : Rat) : Game :=
  let g1 :=
    if g.explosion then
      let t := g.explosionTimer - dt
      if t < 0 then { g with explosion := false, explosionTimer := t }
      else { g with explosionTimer := t }
    else g
  if g1.timerRunning && !g1.gameOver && !g1.win then
    { g1 with timeElapsed := g1.timeElapsed + dt }
  else g1

/-- The eight neighbour offsets `(dx, dy)` in the iteration order of the
source's double loop (`dy` outer from `-1` to `1`, `dx` inner, skipping
`(0,0)`). -/
def neighborOffsets : List (Int × Int) :=
  [(-1,-1), (0,-1), (1,-1), (-1,0), (1,0), (-1,1), (0,1), (1,1)]

/-- `Game::countMinesAround`: number of in-bounds neighbours with mine
content. -/
def Game.countMinesAround (g : Game) (x y : Int) : Nat :=
  (neighborOffsets.filter (fun d =>
    g.inBounds (x + d.1) (y + d.2) && (g.cellAt (x + d.1) (y + d.2)).content.isMine)).length

/-- The flood-fill guard on a neighbour: in bounds, and
`!isOpen && !isFlagged && !isMine`. -/
def Game.openableB (g : Game) (x y : Int) : Bool :=
  g.inBounds x y && !(g.cellAt x y).state.isOpen
    && !(g.cellAt x y).state.isFlagged && !(g.cellAt x y).content.isMine

/-- The body of `Game::floodFill` for one neighbour `(nx, ny)`: if it is in
bounds and neither open, flagged nor a mine, open it, and recurse (`rec`) when
its content is empty. -/
def floodVisit (rec : Game → Int → Int → Game) (g : Game) (nx ny : Int) : Game :=
  if g.openableB nx ny then
    let c := g.cellAt nx ny
    let g2 := g.setState nx ny CellState.Opened
    if c.content.isEmpty then rec g2 nx ny else g2
  else g

/-- One pass of `Game::floodFill` over a list of neighbour offsets; `rec` is
the recursive call made on a newly opened empty neighbour. -/
def floodNbrs (rec : Game → Int → Int → Game) (g : Game) (x y : Int) :
    List (Int × Int) → Game
  | [] => g
  | d :: ds => floodNbrs rec (floodVisit rec g (x + d.1) (y + d.2)) x y ds

/-- `Game::floodFill` with an explicit fuel bounding the recursion depth. -/
def floodFillAux : Nat → Game → Int → Int → Game
  | 0 => fun g _ _ => g
  | fuel + 1 => fun g x y => floodNbrs (floodFillAux fuel) g x y neighborOffsets

/-- `Game::floodFill`.  The fuel `W*H + 1` strictly exceeds the number of
non-open cells of a well-formed board, and each recursion level of the source
is entered only after opening one more cell, so the fuel-0 branch is never
taken on a well-formed board. -/
def Game.floodFill (g : Game) (x y : Int) : Game :=
  floodFillAux (g.W * g.H + 1) g x y

/-- `Game::revealAll` (the loop inside `triggerExplosion` that opens the whole
field). -/
def Game.revealAll (g : Game) : Game :=
  { g with field := g.field.map (fun row => row.map (fun c => { c with state := CellState.Opened })) }

/-- `Game::triggerExplosion`: explosion flag and countdown `0.2`, open the
whole field, set `gameOver`, stop the timer. -/
def Game.triggerExplosion (g : Game) : Game :=
  let g1 := { g with explosion := true, explosionTimer := (1 : Rat) / 5 }
  let g2 := g1.revealAll
  Game.stopTimer { g2 with gameOver := true }

/-- `Game::flagsCount`. -/
def Game.flagsCount (g : Game) : Nat :=
  (g.field.map (fun row => (row.filter (fun c => c.state.isFlagged)).length)).sum

/-- The scan of `Game::checkWinOpen`: every cell is a mine or open. -/
def Game.allNonMinesOpen (g : Game) : Bool :=
  g.field.all (fun row => row.all (fun c => c.content.isMine || c.state.isOpen))

/-- `Game::checkWinOpen`. -/
def Game.checkWinOpen (g : Game) : Game :=
  if g.allNonMinesOpen then Game.stopTimer { g with win := true } else g

/-- The early-return scan of `Game::checkWinFlags`: every flagged cell is a
mine. -/
def Game.flagsAllOnMines (g : Game) : Bool :=
  g.field.all (fun row => row.all (fun c => !c.state.isFlagged || c.content.isMine))

/-- `Game::checkWinFlags`: if some flagged cell is not a mine, return without
mutating; otherwise win exactly when the flag count equals `MINES`. -/
def Game.checkWinFlags (g : Game) : Game :=
  if g.flagsAllOnMines then
    if g.flagsCount = g.MINES then Game.stopTimer { g with win := true } else g
  else g

/-- `Game::checkWin`: open-based win first, flag-based win only if not yet
won. -/
def Game.checkWin (g : Game) : Game :=
  let g1 := g.checkWinOpen
  if g1.win then g1 else g1.checkWinFlags

/-- The content-reset loop of `DefaultBoardGenerator::generate`
(`makeNumberContent(0)` on every cell, i.e. empty content). -/
def Game.clearContent (g : Game) : Game :=
  { g with field := g.field.map (fun row => row.map (fun c => { c with content := CellContent.Number 0 })) }

/-- The mine-placement loop of `DefaultBoardGenerator::generate`, fed by an
explicit stream of raw random draws.  Each draw is reduced `% W` / `% H`; a
candidate already holding a mine, or inside the 3x3 safe zone around
`(safeX, safeY)`, is skipped.  The returned `Nat` is the final `placed`
counter (`placed = MINES` means the source's `while` loop completed). -/
def placeMines : Game → Int → Int → Nat → List (Nat × Nat) → Game × Nat
  | g, _, _, placed, [] => (g, placed)
  | g, safeX, safeY, placed, r :: rs =>
    if placed < g.MINES then
      if (g.cellAt (Int.ofNat (r.1 % g.W)) (Int.ofNat (r.2 % g.H))).content.isMine then
        placeMines g safeX safeY placed rs
      else if (Int.ofNat (r.1 % g.W) - safeX).natAbs ≤ 1
          ∧ (Int.ofNat (r.2 % g.H) - safeY).natAbs ≤ 1 then
        placeMines g safeX safeY placed rs
      else
        placeMines (g.setContent (Int.ofNat (r.1 % g.W)) (Int.ofNat (r.2 % g.H))
          CellContent.Mine) safeX safeY (placed + 1) rs
    else (g, placed)

/-- The number-recomputation loop of `DefaultBoardGenerator::generate`: row by
row, cell by cell, skip mines and assign `makeNumberContent(countMinesAround)`
on the current (partially rewritten) field. -/
def Game.computeNumbers (g : Game) : Game :=
  (List.range g.H).foldl (fun gy (y : Nat) =>
    (List.range g.W).foldl (fun gx (x : Nat) =>
      if (gx.cellAt (Int.ofNat x) (Int.ofNat y)).content.isMine then gx
      else gx.setContent (Int.ofNat x) (Int.ofNat y)
        (CellContent.Number (gx.countMinesAround (Int.ofNat x) (Int.ofNat y)))) gy) g

/-- `DefaultBoardGenerator::generate`: clear content, place mines, recompute
numbers. -/
def Game.generate (g : Game) (rs : List (Nat × Nat)) (safeX safeY : Int) : Game :=
  (placeMines g.clearContent safeX safeY 0 rs).1.computeNumbers

/-- `Game::revealFromState` (reached from `ClosedState::onLeftClick`).  The
`rs` list feeds the board generator on a first click. -/
def Game.revealFromState (g : Game) (rs : List (Nat × Nat)) (x y : Int) : Game :=
  if g.gameOver || g.win then g
  else
    let c := g.cellAt x y
    if c.state.isOpen || c.state.isFlagged then g
    else
      let g1 :=
        if g.firstClick then
          Game.startTimerIfNeeded { g.generate rs x y with firstClick := false }
        else g
      let c1 := g1.cellAt x y
      let g2 := g1.setState x y CellState.Opened
      if c1.content.isMine then g2.triggerExplosion
      else
        let g3 := if c1.content.isEmpty then g2.floodFill x y else g2
        g3.checkWin

/-- `Game::toggleFlagFromState` (reached from `ClosedState::onRightClick`). -/
def Game.toggleFlagFromState (g : Game) (x y : Int) : Game :=
  if g.gameOver || g.win then g
  else
    let c := g.cellAt x y
    if c.state.isOpen then g
    else
      let g1 := if c.state.isFlagged then g.setState x y CellState.Closed
                else g.setState x y CellState.Flagged
      g1.checkWin

/-- `Game::leftClickCell`: dispatch through the cell's state
(`ClosedState::onLeftClick` reveals; `OpenedState` and `FlaggedState` ignore
left clicks). -/
def Game.leftClickCell (g : Game) (rs : List (Nat × Nat)) (x y : Int) : Game :=
  match (g.cellAt x y).state with
  | .Closed => g.revealFromState rs x y
  | .Opened => g
  | .Flagged => g

/-- `Game::rightClickCell`: dispatch through the cell's state.
`ClosedState::onRightClick` toggles the flag through the guarded
`toggleFlagFromState`; `FlaggedState::onRightClick` sets the cell straight back
to `ClosedState` with no terminal-state guard; `OpenedState` ignores right
clicks. -/
def Game.rightClickCell (g : Game) (x y : Int) : Game :=
  match (g.cellAt x y).state with
  | .Closed => g.toggleFlagFromState x y
  | .Opened => g
  | .Flagged => g.setState x y CellState.Closed

/-- Number of mine-content cells of the field. -/
def Game.mineCount (g : Game) : Nat :=
  (g.field.map (fun row => row.countP (fun c => c.content.isMine))).sum

/-- Number of non-open cells of the field. -/
def Game.closedCount (g : Game) : Nat :=
  (g.field.map (fun row => row.countP (fun c => !c.state.isOpen))).sum

/-- Grid adjacency: `(a, b)` is one of the eight neighbours of `(x, y)`. -/
def Adj (x y a b : Int) : Prop :=
  ∃ d ∈ neighborOffsets, a = x + d.1 ∧ b = y + d.2

instance (x y a b : Int) : Decidable (Adj x y a b) := by
  unfold Adj; infer_instance

/-- Count of mine cells among the up-to-8 in-bounds neighbours of `(x, y)`,
written following the specification's words (a direct scan of the eight
neighbouring positions) as the reference value for the stored numbers. -/
def Game.specNeighborMines (g : Game) (x y : Int) : Nat :=
  ((neighborOffsets.map (fun d => (x + d.1, y + d.2))).filter
    (fun p => g.inBounds p.1 p.2 && (g.cellAt p.1 p.2).content.isMine)).length

/-- The 3x3 safe zone of the generator: Chebyshev distance at most 1 from the
safe-click cell. -/
def inSafeZone (safeX safeY a b : Int) : Prop :=
  (a - safeX).natAbs ≤ 1 ∧ (b - safeY).natAbs ≤ 1

/-- Cells the flood fill recursion starting at `(sx, sy)` opens on board `g`:
transitively reachable through cells that are, on `g` itself, in bounds,
closed, unflagged and not mines, recursing only through empty cells. -/
inductive Reach (g : Game) (sx sy : Int) : Int → Int → Prop where
  | base (a b : Int) (hadj : Adj sx sy a b) (hop : g.openableB a b = true) :
      Reach g sx sy a b
  | step (m n a b : Int) (hm : Reach g sx sy m n)
      (he : (g.cellAt m n).content.isEmpty = true)
      (hadj : Adj m n a b) (hop : g.openableB a b = true) :
      Reach g sx sy a b

/-- A cell the claimed region may pass through or open: in bounds, not a mine,
not flagged — written following the claim's words, which do not exclude
already-opened cells. -/
def Game.specPassable (g : Game) (x y : Int) : Bool :=
  g.inBounds x y && !(g.cellAt x y).content.isMine && !(g.cellAt x y).state.isFlagged

/-- The region the claim describes for a reveal at `(sx, sy)`: the connected
region of empty and adjacent numbered cells transitively reachable from the
clicked cell through empty cells, without crossing a mine or a flagged cell.
Written following the claim's words (for comparison with the code's flood
fill). -/
inductive SpecReach (g : Game) (sx sy : Int) : Int → Int → Prop where
  | base (a b : Int) (hadj : Adj sx sy a b) (hp : g.specPassable a b = true) :
      SpecReach g sx sy a b
  | step (m n a b : Int) (hm : SpecReach g sx sy m n)
      (he : (g.cellAt m n).content.isEmpty = true)
      (hadj : Adj m n a b) (hp : g.specPassable a b = true) :
      SpecReach g sx sy a b

/-- How a board evolves under the flood fill: scalar session state, dimensions
and contents are untouched, every state change turns a closed cell into an
opened one, and the number of non-open cells does not grow. -/
structure Ext (g r : Game) : Prop where
  scal : r.W = g.W ∧ r.H = g.H ∧ r.MINES = g.MINES ∧ r.gameOver = g.gameOver ∧
    r.win = g.win ∧ r.firstClick = g.firstClick ∧ r.explosion = g.explosion ∧
    r.explosionTimer = g.explosionTimer ∧ r.timerRunning = g.timerRunning ∧
    r.timeElapsed = g.timeElapsed
  len : r.field.length = g.field.length
  rowLen : ∀ i : Nat, (r.field.getD i []).length = (g.field.getD i []).length
  content : ∀ a b : Int, (r.cellAt a b).content = (g.cellAt a b).content
  stateStep : ∀ a b : Int, (r.cellAt a b).state = (g.cellAt a b).state ∨
    ((r.cellAt a b).state = CellState.Opened ∧ (g.cellAt a b).state = CellState.Closed)
  closedLe : r.closedCount ≤ g.closedCount

/-- Saturation of the cells newly opened by a flood-fill run from `g` to `r`:
a newly opened empty cell has no openable neighbour left in `r`. -/
def NewSat (g r : Game) : Prop :=
  ∀ a b : Int, g.inBounds a b = true →
    (r.cellAt a b).state.isOpen = true → (g.cellAt a b).state.isOpen = false →
    (g.cellAt a b).content.isEmpty = true →
    ∀ a2 b2 : Int, Adj a b a2 b2 → r.openableB a2 b2 = false

/-- Every neighbour of `(x, y)` is exhausted in `r` (no longer openable). -/
def NbrSat (r : Game) (x y : Int) : Prop :=
  ∀ a b : Int, Adj x y a b → r.openableB a b = false

/-- Soundness invariant of a flood fill that started on board `g0` at
`(sx, sy)`: the current board `g` extends `g0` and every cell opened since
`g0` lies in the reachable region of `g0`. -/
def SoundInv (g0 : Game) (sx sy : Int) (g : Game) : Prop :=
  Ext g0 g ∧ ∀ a b : Int, g0.inBounds a b = true →
    (g.cellAt a b).state.isOpen = true → (g0.cellAt a b).state.isOpen = false →
    Reach g0 sx sy a b

/-- The cells the flood fill recursion is allowed to be sitting on: the start
cell, or a reached cell that is empty on the original board. -/
def ActiveAt (g0 : Game) (sx sy x y : Int) : Prop :=
  (x = sx ∧ y = sy) ∨ (Reach g0 sx sy x y ∧ (g0.cellAt x y).content.isEmpty = true)

/-- All scalar session state of `r` agrees with `g` (everything except the
field). -/
def ScalEq (g r : Game) : Prop :=
  r.W = g.W ∧ r.H = g.H ∧ r.MINES = g.MINES ∧ r.gameOver = g.gameOver ∧
    r.win = g.win ∧ r.firstClick = g.firstClick ∧ r.explosion = g.explosion ∧
    r.explosionTimer = g.explosionTimer ∧ r.timerRunning = g.timerRunning ∧
    r.timeElapsed = g.timeElapsed

/-- One externally triggered mutation of a session: a left or right click
dispatched through the clicked cell's state handler, a frame tick, or a field
reset. -/
inductive GameStep : Game → Game → Prop where
  | leftClick (g : Game) (rs : List (Nat × Nat)) (x y : Int) :
      GameStep g (g.leftClickCell rs x y)
  | rightClick (g : Game) (x y : Int) : GameStep g (g.rightClickCell x y)
  | tick (g : Game) (dt : Rat) : GameStep g (g.update dt)
  | reset (g : Game) : GameStep g g.resetField

/-- Session states reachable from construction by any sequence of clicks,
ticks and resets. -/
inductive Reachable : Game → Prop where
  | init (w h m : Nat) : Reachable (mkGame w h m)
  | step (g g2 : Game) (h1 : Reachable g) (h2 : GameStep g g2) : Reachable g2

/-- A reachable 4x3 session with one mine at `(3, 2)`: the three neighbours of
`(0, 0)` are flagged, the first click at `(0, 0)` generates the board (the
flags block the flood fill), then the three flags are removed again.  The
session is not terminal and the mine cell `(3, 2)` is closed. -/
def gameFlagWinSetup : Game :=
  ((((((((mkGame 4 3 1).rightClickCell 1 0).rightClickCell 1 1).rightClickCell 0 1).leftClickCell
    [(3, 2)] 0 0).rightClickCell 1 0).rightClickCell 1 1).rightClickCell 0 1)

/-- The session after flagging the single mine of `gameFlagWinSetup`: the
flag-based win fires, so `win = true` while the mine cell is still flagged. -/
def gameFlagWin : Game := gameFlagWinSetup.rightClickCell 3 2

/-- A reachable 5x1 session with one mine at `(4, 0)` in which the empty cell
`(2, 0)` is already open while `(0, 0)`, `(1, 0)`, `(3, 0)` are closed and
unflagged: cells `(1, 0)` and `(3, 0)` are flagged, the first click at
`(2, 0)` generates the board and opens only `(2, 0)`, then both flags are
removed. -/
def gameBlockedRow : Game :=
  (((((mkGame 5 1 1).rightClickCell 1 0).rightClickCell 3 0).leftClickCell
    [(4, 0)] 2 0).rightClickCell 1 0).rightClickCell 3 0

/-- A 2x1 post-generation board whose single mine at `(0, 0)` is flagged and
whose numbered cell is closed (flag-based win condition holds, open-based does
not). -/
def gameFlaggedMine : Game :=
  { W := 2, H := 1, MINES := 1, firstClick := false,
    field := [[⟨CellContent.Mine, CellState.Flagged⟩,
               ⟨CellContent.Number 1, CellState.Closed⟩]] }

/-- A 2x1 post-generation board with a closed unflagged mine at `(0, 0)`. -/
def gameClosedMine : Game :=
  { W := 2, H := 1, MINES := 1, firstClick := false,
    field := [[⟨CellContent.Mine, CellState.Closed⟩,
               ⟨CellContent.Number 1, CellState.Closed⟩]] }

/-- A 1x1 session in the middle of the explosion animation: the explosion flag
is active with the full countdown `0.2` remaining. -/
def gameExploding : Game :=
  { W := 1, H := 1, MINES := 0, gameOver := true, explosion := true,
    explosionTimer := (1 : Rat) / 5, firstClick := false,
    field := [[⟨CellContent.Number 0, CellState.Opened⟩]] }

/-- A 3x1 post-generation board of empty closed cells (no mines). -/
def gameEmptyRow : Game :=
  { W := 3, H := 1, MINES := 0, firstClick := false,
    field := [[initialCell, initialCell, initialCell]] }

/-! ### List access lemmas -/

theorem getD_set_self {α : Type} (l : List α) (i : Nat) (a d : α) (h : i < l.length) :
    (l.set i a).getD i d = a := by
  induction l generalizing i with
  | nil => simp at h
  | cons x xs ih =>
    cases i with
    | zero => rfl
    | succ n => simpa using ih n (by simpa using h)

theorem getD_set_ne {α : Type} (l : List α) (i j : Nat) (a d : α) (h : i ≠ j) :
    (l.set i a).getD j d = l.getD j d := by
  induction l generalizing i j with
  | nil => rfl
  | cons x xs ih =>
    cases i with
    | zero =>
      cases j with
      | zero => exact absurd rfl h
      | succ m => rfl
    | succ n =>
      cases j with
      | zero => rfl
      | succ m => simpa using ih n m (fun hh => h (by simpa using hh))

theorem set_getD_self {α : Type} (l : List α) (i : Nat) (d : α) (h : i < l.length) :
    l.set i (l.getD i d) = l := by
  induction l generalizing i with
  | nil => rfl
  | cons x xs ih =>
    cases i with
    | zero => rfl
    | succ n =>
      show x :: xs.set n (xs.getD n d) = x :: xs
      rw [ih n (by simpa using h)]

theorem set_oob {α : Type} (l : List α) (i : Nat) (a : α) (h : l.length ≤ i) :
    l.set i a = l := by
  induction l generalizing i with
  | nil => rfl
  | cons x xs ih =>
    cases i with
    | zero => simp at h
    | succ n =>
      show x :: xs.set n a = x :: xs
      rw [ih n (by simpa using h)]

theorem getD_oob {α : Type} (l : List α) (i : Nat) (d : α) (h : l.length ≤ i) :
    l.getD i d = d := by
  induction l generalizing i with
  | nil => cases i <;> rfl
  | cons x xs ih =>
    cases i with
    | zero => simp at h
    | succ n => simpa using ih n (by simpa using h)

theorem getD_mem {α : Type} (l : List α) (i : Nat) (d : α) (h : i < l.length) :
    l.getD i d ∈ l := by
  induction l generalizing i with
  | nil => simp at h
  | cons x xs ih =>
    cases i with
    | zero => exact List.mem_cons_self x xs
    | succ n => exact List.mem_cons_of_mem x (ih n (by simpa using h))

theorem all_iff_getD {α : Type} (l : List α) (p : α → Bool) (d : α) :
    (l.all p = true) ↔ ∀ i, i < l.length → p (l.getD i d) = true := by
  induction l with
  | nil => simp
  | cons x xs ih =>
    simp only [List.all_cons, Bool.and_eq_true, ih, List.length_cons]
    constructor
    · rintro ⟨hx, hrest⟩ i hi
      cases i with
      | zero => simpa using hx
      | succ n => simpa using hrest n (by omega)
    · intro h
      refine ⟨by simpa using h 0 (by omega), fun i hi => by simpa using h (i + 1) (by omega)⟩

theorem countP_set_row (l : List Cell) (i : Nat) (c : Cell) (p : Cell → Bool)
    (h : i < l.length) :
    (l.set i c).countP p + (if p (l.getD i initialCell) then 1 else 0)
      = l.countP p + (if p c then 1 else 0) := by
  induction l generalizing i with
  | nil => simp at h
  | cons x xs ih =>
    cases i with
    | zero => simp only [List.set_cons_zero, List.countP_cons, List.getD_cons_zero]; omega
    | succ n =>
      have hh := ih n (by simpa using h)
      simp only [List.set_cons_succ, List.countP_cons, List.getD_cons_succ]
      omega

theorem countPSum_setGrid (f : List (List Cell)) (x y : Nat) (c : Cell) (p : Cell → Bool)
    (hy : y < f.length) (hx : x < (f.getD y []).length) :
    ((setGrid f x y c).map (fun row => row.countP p)).sum
      + (if p ((f.getD y []).getD x initialCell) then 1 else 0)
      = (f.map (fun row => row.countP p)).sum + (if p c then 1 else 0) := by
  induction f generalizing y with
  | nil => simp at hy
  | cons row rows ih =>
    cases y with
    | zero =>
      have hh := countP_set_row row x c p (by simpa using hx)
      simp only [setGrid, List.getD_cons_zero, List.set_cons_zero, List.map_cons,
        List.sum_cons] at hh ⊢
      omega
    | succ m =>
      have hh := ih m (by simpa using hy) (by simpa using hx)
      simp only [setGrid, List.getD_cons_succ, List.set_cons_succ, List.map_cons,
        List.sum_cons] at hh ⊢
      omega

/-! ### Cell access and update lemmas -/

theorem cellAt_toNat (g : Game) (x y a b : Int) (hx : x.toNat = a.toNat)
    (hy : y.toNat = b.toNat) : g.cellAt x y = g.cellAt a b := by
  unfold Game.cellAt
  rw [hx, hy]

theorem setCell_scal (g : Game) (x y : Int) (c : Cell) :
    (g.setCell x y c).W = g.W ∧ (g.setCell x y c).H = g.H
      ∧ (g.setCell x y c).MINES = g.MINES ∧ (g.setCell x y c).gameOver = g.gameOver
      ∧ (g.setCell x y c).win = g.win ∧ (g.setCell x y c).firstClick = g.firstClick
      ∧ (g.setCell x y c).explosion = g.explosion
      ∧ (g.setCell x y c).explosionTimer = g.explosionTimer
      ∧ (g.setCell x y c).timerRunning = g.timerRunning
      ∧ (g.setCell x y c).timeElapsed = g.timeElapsed :=
  ⟨rfl, rfl, rfl, rfl, rfl, rfl, rfl, rfl, rfl, rfl⟩

theorem cellAt_setCell (g : Game) (x y a b : Int) (c : Cell) :
    (g.setCell x y c).cellAt a b =
      if x.toNat = a.toNat ∧ y.toNat = b.toNat ∧ y.toNat < g.field.length
          ∧ x.toNat < (g.field.getD y.toNat []).length
      then c else g.cellAt a b := by
  unfold Game.setCell Game.cellAt setGrid
  by_cases h3 : y.toNat < g.field.length
  · by_cases h4 : x.toNat < (g.field.getD y.toNat []).length
    · by_cases h2 : y.toNat = b.toNat
      · by_cases h1 : x.toNat = a.toNat
        · rw [if_pos ⟨h1, h2, h3, h4⟩, ← h1, ← h2, getD_set_self _ _ _ _ h3,
            getD_set_self _ _ _ _ h4]
        · rw [if_neg (fun hh => h1 hh.1), ← h2, getD_set_self _ _ _ _ h3,
            getD_set_ne _ _ _ _ _ h1]
      · rw [if_neg (fun hh => h2 hh.2.1), getD_set_ne _ _ _ _ _ h2]
    · rw [if_neg (fun hh => h4 hh.2.2.2), set_oob (g.field.getD y.toNat []) x.toNat c (by omega),
        set_getD_self g.field y.toNat [] h3]
  · rw [if_neg (fun hh => h3 hh.2.2.1), set_oob g.field y.toNat _ (by omega)]

theorem length_setCell (g : Game) (x y : Int) (c : Cell) :
    (g.setCell x y c).field.length = g.field.length := by
  simp [Game.setCell, setGrid]

theorem rowLen_setCell (g : Game) (x y : Int) (c : Cell) (i : Nat) :
    ((g.setCell x y c).field.getD i []).length = (g.field.getD i []).length := by
  unfold Game.setCell setGrid
  by_cases h2 : y.toNat = i
  · subst h2
    by_cases h3 : y.toNat < g.field.length
    · rw [getD_set_self _ _ _ _ h3]
      simp
    · rw [set_oob _ _ _ (by omega)]
  · rw [getD_set_ne _ _ _ _ _ h2]

theorem WF_setCell (g : Game) (x y : Int) (c : Cell) (h : g.WF) : (g.setCell x y c).WF := by
  obtain ⟨h1, h2⟩ := h
  have hH : (g.setCell x y c).H = g.H := rfl
  refine ⟨by rw [length_setCell, h1, hH], fun i hi => ?_⟩
  rw [rowLen_setCell]
  exact h2 i (by rw [hH] at hi; exact hi)

theorem inBounds_bounds (g : Game) (x y : Int) (hWF : g.WF) (h : g.inBounds x y = true) :
    y.toNat < g.field.length ∧ x.toNat < (g.field.getD y.toNat []).length := by
  simp only [Game.inBounds, Bool.and_eq_true, decide_eq_true_eq] at h
  obtain ⟨⟨⟨hx0, hxw⟩, hy0⟩, hyh⟩ := h
  obtain ⟨h1, h2⟩ := hWF
  have hy : y.toNat < g.H := by omega
  constructor
  · omega
  · rw [h2 y.toNat hy]; omega

theorem inBounds_elim (g : Game) (x y : Int) (h : g.inBounds x y = true) :
    0 ≤ x ∧ x < (g.W : Int) ∧ 0 ≤ y ∧ y < (g.H : Int) := by
  simp only [Game.inBounds, Bool.and_eq_true, decide_eq_true_eq] at h
  omega

theorem inBounds_toNat_inj (g : Game) (x y a b : Int) (h1 : g.inBounds x y = true)
    (h2 : g.inBounds a b = true) (hx : x.toNat = a.toNat) (hy : y.toNat = b.toNat) :
    x = a ∧ y = b := by
  have e1 := inBounds_elim g x y h1
  have e2 := inBounds_elim g a b h2
  omega

theorem cellAt_setCell_self (g : Game) (x y : Int) (c : Cell) (hWF : g.WF)
    (h : g.inBounds x y = true) : (g.setCell x y c).cellAt x y = c := by
  obtain ⟨hb1, hb2⟩ := inBounds_bounds g x y hWF h
  rw [cellAt_setCell, if_pos ⟨rfl, rfl, hb1, hb2⟩]

theorem cellAt_setCell_of_ne (g : Game) (x y a b : Int) (c : Cell)
    (h : ¬(x.toNat = a.toNat ∧ y.toNat = b.toNat)) :
    (g.setCell x y c).cellAt a b = g.cellAt a b := by
  rw [cellAt_setCell]
  split
  · rename_i hh
    exact absurd ⟨hh.1, hh.2.1⟩ h
  · rfl

theorem setCell_oob (g : Game) (x y : Int) (c : Cell)
    (h : ¬(y.toNat < g.field.length ∧ x.toNat < (g.field.getD y.toNat []).length)) :
    g.setCell x y c = g := by
  unfold Game.setCell setGrid
  by_cases h3 : y.toNat < g.field.length
  · have h4 : ¬x.toNat < (g.field.getD y.toNat []).length := fun hh => h ⟨h3, hh⟩
    rw [set_oob (g.field.getD y.toNat []) x.toNat c (by omega),
      set_getD_self g.field y.toNat [] h3]
  · rw [set_oob g.field y.toNat _ (by omega)]

theorem closedCount_setCell (g : Game) (x y : Int) (c : Cell)
    (h3 : y.toNat < g.field.length) (h4 : x.toNat < (g.field.getD y.toNat []).length) :
    (g.setCell x y c).closedCount + (if !(g.cellAt x y).state.isOpen then 1 else 0)
      = g.closedCount + (if !c.state.isOpen then 1 else 0) :=
  countPSum_setGrid g.field x.toNat y.toNat c _ h3 h4

theorem closedCount_setOpened_le (g : Game) (x y : Int) :
    (g.setState x y CellState.Opened).closedCount ≤ g.closedCount := by
  unfold Game.setState
  by_cases h : y.toNat < g.field.length ∧ x.toNat < (g.field.getD y.toNat []).length
  · have hh := closedCount_setCell g x y { g.cellAt x y with state := CellState.Opened } h.1 h.2
    have he : (!({ g.cellAt x y with state := CellState.Opened } : Cell).state.isOpen) = false :=
      rfl
    rw [he, if_neg Bool.false_ne_true] at hh
    omega
  · rw [setCell_oob g x y _ h]

theorem closedCount_setOpened (g : Game) (x y : Int) (hWF : g.WF)
    (hin : g.inBounds x y = true) (hcl : (g.cellAt x y).state.isOpen = false) :
    (g.setState x y CellState.Opened).closedCount + 1 = g.closedCount := by
  unfold Game.setState
  obtain ⟨hb1, hb2⟩ := inBounds_bounds g x y hWF hin
  have hh := closedCount_setCell g x y { g.cellAt x y with state := CellState.Opened } hb1 hb2
  have he : (!({ g.cellAt x y with state := CellState.Opened } : Cell).state.isOpen) = false :=
    rfl
  rw [hcl, Bool.not_false, if_pos rfl, he, if_neg Bool.false_ne_true] at hh
  omega

/-! ### The flood-fill evolution invariant -/

theorem extRefl (g : Game) : Ext g g :=
  ⟨⟨rfl, rfl, rfl, rfl, rfl, rfl, rfl, rfl, rfl, rfl⟩, rfl, fun _ => rfl,
    fun _ _ => rfl, fun _ _ => Or.inl rfl, Nat.le_refl _⟩

theorem Ext.trans {g1 g2 g3 : Game} (h12 : Ext g1 g2) (h23 : Ext g2 g3) : Ext g1 g3 := by
  obtain ⟨s12, l12, r12, c12, t12, cl12⟩ := h12
  obtain ⟨s23, l23, r23, c23, t23, cl23⟩ := h23
  refine ⟨?_, l23.trans l12, fun i => (r23 i).trans (r12 i),
    fun a b => (c23 a b).trans (c12 a b), fun a b => ?_, cl23.trans cl12⟩
  · exact ⟨s23.1.trans s12.1, s23.2.1.trans s12.2.1, s23.2.2.1.trans s12.2.2.1,
      s23.2.2.2.1.trans s12.2.2.2.1, s23.2.2.2.2.1.trans s12.2.2.2.2.1,
      s23.2.2.2.2.2.1.trans s12.2.2.2.2.2.1, s23.2.2.2.2.2.2.1.trans s12.2.2.2.2.2.2.1,
      s23.2.2.2.2.2.2.2.1.trans s12.2.2.2.2.2.2.2.1,
      s23.2.2.2.2.2.2.2.2.1.trans s12.2.2.2.2.2.2.2.2.1,
      s23.2.2.2.2.2.2.2.2.2.trans s12.2.2.2.2.2.2.2.2.2⟩
  · rcases t23 a b with h | h
    · rw [h]; exact t12 a b
    · rcases t12 a b with h2 | h2
      · exact Or.inr ⟨h.1, h2 ▸ h.2⟩
      · rw [h2.1] at h; exact absurd h.2 (by simp)

theorem Ext_setOpened (g : Game) (x y : Int)
    (hcl : (g.cellAt x y).state = CellState.Closed) :
    Ext g (g.setState x y CellState.Opened) := by
  refine ⟨⟨rfl, rfl, rfl, rfl, rfl, rfl, rfl, rfl, rfl, rfl⟩,
    length_setCell g x y _, rowLen_setCell g x y _, fun a b => ?_, fun a b => ?_,
    closedCount_setOpened_le g x y⟩
  · unfold Game.setState
    rw [cellAt_setCell]
    split
    · rename_i hh
      show (g.cellAt x y).content = (g.cellAt a b).content
      rw [cellAt_toNat g x y a b hh.1 hh.2.1]
    · rfl
  · unfold Game.setState
    rw [cellAt_setCell]
    split
    · rename_i hh
      refine Or.inr ⟨rfl, ?_⟩
      rw [← cellAt_toNat g x y a b hh.1 hh.2.1]
      exact hcl
    · exact Or.inl rfl

theorem Ext.openMono {g r : Game} (h : Ext g r) (a b : Int)
    (ho : (g.cellAt a b).state.isOpen = true) : (r.cellAt a b).state.isOpen = true := by
  rcases h.stateStep a b with hh | hh
  · rw [hh]; exact ho
  · rw [hh.1]; rfl

theorem Ext.flagEq {g r : Game} (h : Ext g r) (a b : Int) :
    (r.cellAt a b).state.isFlagged = (g.cellAt a b).state.isFlagged := by
  rcases h.stateStep a b with hh | hh
  · rw [hh]
  · rw [hh.1, hh.2]
    rfl

theorem Ext.inBoundsEq {g r : Game} (h : Ext g r) (a b : Int) :
    r.inBounds a b = g.inBounds a b := by
  unfold Game.inBounds
  rw [h.scal.1, h.scal.2.1]

theorem Ext.openableTrue {g r : Game} (h : Ext g r) (a b : Int)
    (ho : r.openableB a b = true) : g.openableB a b = true := by
  unfold Game.openableB at ho ⊢
  rw [h.inBoundsEq a b, h.flagEq a b, h.content a b] at ho
  simp only [Bool.and_eq_true, Bool.not_eq_true'] at ho ⊢
  obtain ⟨⟨⟨hin, hro⟩, hfl⟩, hmi⟩ := ho
  refine ⟨⟨⟨hin, ?_⟩, hfl⟩, hmi⟩
  cases hh : (g.cellAt a b).state.isOpen
  · rfl
  · rw [h.openMono a b hh] at hro
    exact hro

theorem Ext.openableFalse {g r : Game} (h : Ext g r) (a b : Int)
    (ho : g.openableB a b = false) : r.openableB a b = false := by
  cases hr : r.openableB a b
  · rfl
  · rw [h.openableTrue a b hr] at ho
    exact ho

theorem Ext.WF {g r : Game} (h : Ext g r) (hWF : g.WF) : r.WF := by
  obtain ⟨h1, h2⟩ := hWF
  constructor
  · rw [h.len, h1, h.scal.2.1]
  · intro i hi
    rw [h.rowLen i, h.scal.1]
    exact h2 i (by rw [h.scal.2.1] at hi; exact hi)

/-! ### Flood fill: evolution, saturation and soundness -/

theorem openableB_elim (g : Game) (x y : Int) (h : g.openableB x y = true) :
    g.inBounds x y = true ∧ (g.cellAt x y).state.isOpen = false
      ∧ (g.cellAt x y).state.isFlagged = false ∧ (g.cellAt x y).content.isMine = false := by
  unfold Game.openableB at h
  simp only [Bool.and_eq_true, Bool.not_eq_true'] at h
  exact ⟨h.1.1.1, h.1.1.2, h.1.2, h.2⟩

theorem openableB_closed (g : Game) (x y : Int) (h : g.openableB x y = true) :
    (g.cellAt x y).state = CellState.Closed := by
  obtain ⟨-, ho, hf, -⟩ := openableB_elim g x y h
  cases hs : (g.cellAt x y).state
  · rfl
  · rw [hs] at ho
    exact absurd ho (by simp [CellState.isOpen])
  · rw [hs] at hf
    exact absurd hf (by simp [CellState.isFlagged])

theorem openable_false_open {g r : Game} (hext : Ext g r) (a b : Int)
    (hop : g.openableB a b = true) (hno : r.openableB a b = false) :
    (r.cellAt a b).state.isOpen = true := by
  obtain ⟨hin, -, hf, hm⟩ := openableB_elim g a b hop
  unfold Game.openableB at hno
  rw [hext.inBoundsEq a b, hext.flagEq a b, hext.content a b, hin, hf, hm] at hno
  cases hro : (r.cellAt a b).state.isOpen
  · rw [hro] at hno
    simp at hno
  · rfl

theorem floodVisit_ext (rec : Game → Int → Int → Game)
    (hrec : ∀ g x y, Ext g (rec g x y)) (g : Game) (nx ny : Int) :
    Ext g (floodVisit rec g nx ny) := by
  unfold floodVisit
  split
  · rename_i ho
    have hcl := openableB_closed g nx ny ho
    show Ext g (if (g.cellAt nx ny).content.isEmpty = true
      then rec (g.setState nx ny CellState.Opened) nx ny
      else g.setState nx ny CellState.Opened)
    split
    · exact Ext.trans (Ext_setOpened g nx ny hcl) (hrec _ nx ny)
    · exact Ext_setOpened g nx ny hcl
  · exact extRefl g

theorem floodNbrs_ext (rec : Game → Int → Int → Game)
    (hrec : ∀ g x y, Ext g (rec g x y)) :
    ∀ (ds : List (Int × Int)) (g : Game) (x y : Int), Ext g (floodNbrs rec g x y ds) := by
  intro ds
  induction ds with
  | nil => exact fun g x y => extRefl g
  | cons d ds ih =>
    intro g x y
    exact Ext.trans (floodVisit_ext rec hrec g (x + d.1) (y + d.2)) (ih _ x y)

theorem floodFillAux_ext : ∀ (n : Nat) (g : Game) (x y : Int), Ext g (floodFillAux n g x y) := by
  intro n
  induction n with
  | zero => exact fun g x y => extRefl g
  | succ n ih => exact fun g x y => floodNbrs_ext (floodFillAux n) ih neighborOffsets g x y

theorem newSat_rfl (g : Game) : NewSat g g := by
  intro a b _ hro hgo
  rw [hro] at hgo
  exact absurd hgo (by simp)

theorem newSat_comp {g g1 r : Game} (e1 : Ext g g1) (e2 : Ext g1 r)
    (n1 : NewSat g g1) (n2 : NewSat g1 r) : NewSat g r := by
  intro a b hin hro hgo hge a2 b2 hadj
  cases h1 : (g1.cellAt a b).state.isOpen
  · have hin1 : g1.inBounds a b = true := by rw [e1.inBoundsEq]; exact hin
    have hge1 : (g1.cellAt a b).content.isEmpty = true := by rw [e1.content]; exact hge
    exact n2 a b hin1 hro h1 hge1 a2 b2 hadj
  · exact e2.openableFalse a2 b2 (n1 a b hin h1 hgo hge a2 b2 hadj)

theorem floodVisit_sat (n : Nat) (rec : Game → Int → Int → Game)
    (hrecExt : ∀ g x y, Ext g (rec g x y))
    (hrec : ∀ g x y, g.WF → g.closedCount < n → NbrSat (rec g x y) x y ∧ NewSat g (rec g x y))
    (g : Game) (nx ny : Int) (hWF : g.WF) (hcc : g.closedCount ≤ n) :
    (floodVisit rec g nx ny).openableB nx ny = false ∧ NewSat g (floodVisit rec g nx ny) := by
  unfold floodVisit
  split
  · rename_i ho
    obtain ⟨hin, hop, hfl, hmi⟩ := openableB_elim g nx ny ho
    have hcl := openableB_closed g nx ny ho
    have hext2 := Ext_setOpened g nx ny hcl
    have hWF2 := hext2.WF hWF
    have hself : (g.setState nx ny CellState.Opened).cellAt nx ny
        = { g.cellAt nx ny with state := CellState.Opened } :=
      cellAt_setCell_self g nx ny _ hWF hin
    have hopen2 : ((g.setState nx ny CellState.Opened).cellAt nx ny).state.isOpen = true := by
      rw [hself]
      rfl
    have hno2 : (g.setState nx ny CellState.Opened).openableB nx ny = false := by
      unfold Game.openableB
      rw [hopen2]
      simp
    show (if (g.cellAt nx ny).content.isEmpty = true
      then rec (g.setState nx ny CellState.Opened) nx ny
      else g.setState nx ny CellState.Opened).openableB nx ny = false
      ∧ NewSat g (if (g.cellAt nx ny).content.isEmpty = true
        then rec (g.setState nx ny CellState.Opened) nx ny
        else g.setState nx ny CellState.Opened)
    -- every other cell is unchanged, and an in-bounds cell with the same
    -- truncated coordinates is the visited cell itself
    have hother : ∀ a b : Int, g.inBounds a b = true → ¬(a = nx ∧ b = ny) →
        (g.setState nx ny CellState.Opened).cellAt a b = g.cellAt a b := by
      intro a b hinab hne
      refine cellAt_setCell_of_ne g nx ny a b _ (fun hh => hne ?_)
      obtain ⟨h1, h2⟩ := inBounds_toNat_inj g nx ny a b hin hinab hh.1 hh.2
      exact ⟨h1.symm, h2.symm⟩
    split
    · rename_i hemp
      have hcc2 : (g.setState nx ny CellState.Opened).closedCount < n := by
        have := closedCount_setOpened g nx ny hWF hin hop
        omega
      obtain ⟨hnbr, hnew⟩ := hrec _ nx ny hWF2 hcc2
      have hext3 : Ext (g.setState nx ny CellState.Opened) (rec (g.setState nx ny CellState.Opened) nx ny) :=
        hrecExt _ nx ny
      refine ⟨hext3.openableFalse nx ny hno2, ?_⟩
      -- compose: the new opens are the visited cell plus those of the recursion
      intro a b hinab hro hgo hge a2 b2 hadj
      by_cases he : a = nx ∧ b = ny
      · exact hnbr a2 b2 (he.1 ▸ he.2 ▸ hadj)
      · have hmid := hother a b hinab he
        have hinab2 : (g.setState nx ny CellState.Opened).inBounds a b = true := by
          rw [hext2.inBoundsEq]; exact hinab
        refine hnew a b hinab2 hro ?_ ?_ a2 b2 hadj
        · rw [hmid]; exact hgo
        · rw [hmid]; exact hge
    · rename_i hemp
      refine ⟨hno2, ?_⟩
      intro a b hinab hro hgo hge a2 b2 hadj
      by_cases he : a = nx ∧ b = ny
      · rw [he.1, he.2] at hge
        exact absurd hge hemp
      · rw [hother a b hinab he] at hro
        rw [hro] at hgo
        exact absurd hgo (by simp)
  · refine ⟨?_, newSat_rfl g⟩
    rename_i ho
    simpa using ho

theorem cellAt_setState_of_ne (g : Game) (x y a b : Int) (s : CellState)
    (h : ¬(x.toNat = a.toNat ∧ y.toNat = b.toNat)) :
    (g.setState x y s).cellAt a b = g.cellAt a b :=
  cellAt_setCell_of_ne g x y a b _ h

theorem cellAt_setState_self (g : Game) (x y : Int) (s : CellState) (hWF : g.WF)
    (h : g.inBounds x y = true) :
    (g.setState x y s).cellAt x y = { g.cellAt x y with state := s } :=
  cellAt_setCell_self g x y _ hWF h

theorem floodNbrs_sat (n : Nat) (rec : Game → Int → Int → Game)
    (hrecExt : ∀ g x y, Ext g (rec g x y))
    (hrec : ∀ g x y, g.WF → g.closedCount < n →
      NbrSat (rec g x y) x y ∧ NewSat g (rec g x y)) :
    ∀ (ds : List (Int × Int)) (g : Game) (x y : Int), g.WF → g.closedCount ≤ n →
      (∀ d ∈ ds, (floodNbrs rec g x y ds).openableB (x + d.1) (y + d.2) = false)
        ∧ NewSat g (floodNbrs rec g x y ds) := by
  intro ds
  induction ds with
  | nil =>
    intro g x y _ _
    exact ⟨fun d hd => absurd hd (List.not_mem_nil d), newSat_rfl g⟩
  | cons d ds ih =>
    intro g x y hWF hcc
    have hv := floodVisit_sat n rec hrecExt hrec g (x + d.1) (y + d.2) hWF hcc
    have hve : Ext g (floodVisit rec g (x + d.1) (y + d.2)) :=
      floodVisit_ext rec hrecExt g (x + d.1) (y + d.2)
    have hWF1 := hve.WF hWF
    have hcc1 : (floodVisit rec g (x + d.1) (y + d.2)).closedCount ≤ n :=
      le_trans hve.closedLe hcc
    obtain ⟨hrest, hnew1⟩ := ih (floodVisit rec g (x + d.1) (y + d.2)) x y hWF1 hcc1
    have hne : Ext (floodVisit rec g (x + d.1) (y + d.2))
        (floodNbrs rec (floodVisit rec g (x + d.1) (y + d.2)) x y ds) :=
      floodNbrs_ext rec hrecExt ds _ x y
    constructor
    · intro d2 hd2
      rcases List.mem_cons.mp hd2 with h | h
      · subst h
        show (floodNbrs rec (floodVisit rec g (x + d2.1) (y + d2.2)) x y ds).openableB
          (x + d2.1) (y + d2.2) = false
        exact hne.openableFalse _ _ hv.1
      · exact hrest d2 h
    · show NewSat g (floodNbrs rec (floodVisit rec g (x + d.1) (y + d.2)) x y ds)
      exact newSat_comp hve hne hv.2 hnew1

theorem floodFillAux_sat :
    ∀ (n : Nat) (g : Game) (x y : Int), g.WF → g.closedCount < n →
      NbrSat (floodFillAux n g x y) x y ∧ NewSat g (floodFillAux n g x y) := by
  intro n
  induction n with
  | zero =>
    intro g x y _ h
    omega
  | succ n ih =>
    intro g x y hWF hcc
    have h := floodNbrs_sat n (floodFillAux n) (floodFillAux_ext n) ih
      neighborOffsets g x y hWF (by omega)
    refine ⟨?_, h.2⟩
    intro a b hadj
    obtain ⟨d, hd, ha, hb⟩ := hadj
    rw [ha, hb]
    exact h.1 d hd

theorem floodVisit_sound {g0 : Game} {sx sy : Int} (rec : Game → Int → Int → Game)
    (hrec : ∀ g x y, SoundInv g0 sx sy g → ActiveAt g0 sx sy x y →
      SoundInv g0 sx sy (rec g x y))
    (g : Game) (x y nx ny : Int) (hinv : SoundInv g0 sx sy g)
    (hact : ActiveAt g0 sx sy x y) (hadj : Adj x y nx ny) :
    SoundInv g0 sx sy (floodVisit rec g nx ny) := by
  unfold floodVisit
  split
  · rename_i ho
    have hcl := openableB_closed g nx ny ho
    have hop0 : g0.openableB nx ny = true := hinv.1.openableTrue nx ny ho
    have hreach : Reach g0 sx sy nx ny := by
      rcases hact with ⟨hx, hy⟩ | ⟨hr, he⟩
      · exact Reach.base nx ny (hx ▸ hy ▸ hadj) hop0
      · exact Reach.step x y nx ny hr he hadj hop0
    have hext2 := Ext_setOpened g nx ny hcl
    have hinv2 : SoundInv g0 sx sy (g.setState nx ny CellState.Opened) := by
      refine ⟨Ext.trans hinv.1 hext2, ?_⟩
      intro a b hin0 hro hgo
      by_cases he2 : a = nx ∧ b = ny
      · rw [he2.1, he2.2]
        exact hreach
      · have hing : g.inBounds nx ny = true := (openableB_elim g nx ny ho).1
        have hinga : g.inBounds a b = true := by
          rw [hinv.1.inBoundsEq]
          exact hin0
        have hne : ¬(nx.toNat = a.toNat ∧ ny.toNat = b.toNat) := by
          intro hh
          obtain ⟨h1, h2⟩ := inBounds_toNat_inj g nx ny a b hing hinga hh.1 hh.2
          exact he2 ⟨h1.symm, h2.symm⟩
        rw [cellAt_setState_of_ne g nx ny a b _ hne] at hro
        exact hinv.2 a b hin0 hro hgo
    show SoundInv g0 sx sy (if (g.cellAt nx ny).content.isEmpty = true
      then rec (g.setState nx ny CellState.Opened) nx ny
      else g.setState nx ny CellState.Opened)
    split
    · rename_i hemp
      refine hrec _ nx ny hinv2 (Or.inr ⟨hreach, ?_⟩)
      rw [← hinv.1.content nx ny]
      exact hemp
    · exact hinv2
  · exact hinv

theorem floodNbrs_sound {g0 : Game} {sx sy : Int} (rec : Game → Int → Int → Game)
    (hrec : ∀ g x y, SoundInv g0 sx sy g → ActiveAt g0 sx sy x y →
      SoundInv g0 sx sy (rec g x y)) :
    ∀ (ds : List (Int × Int)), (∀ d ∈ ds, d ∈ neighborOffsets) →
      ∀ (g : Game) (x y : Int), SoundInv g0 sx sy g → ActiveAt g0 sx sy x y →
        SoundInv g0 sx sy (floodNbrs rec g x y ds) := by
  intro ds
  induction ds with
  | nil => exact fun _ g x y hinv _ => hinv
  | cons d ds ih =>
    intro hds g x y hinv hact
    show SoundInv g0 sx sy (floodNbrs rec (floodVisit rec g (x + d.1) (y + d.2)) x y ds)
    refine ih (fun d2 hd2 => hds d2 (List.mem_cons_of_mem d hd2)) _ x y ?_ hact
    exact floodVisit_sound rec hrec g x y (x + d.1) (y + d.2) hinv hact
      ⟨d, hds d (List.mem_cons_self d ds), rfl, rfl⟩

theorem floodFillAux_sound {g0 : Game} {sx sy : Int} :
    ∀ (n : Nat) (g : Game) (x y : Int), SoundInv g0 sx sy g → ActiveAt g0 sx sy x y →
      SoundInv g0 sx sy (floodFillAux n g x y) := by
  intro n
  induction n with
  | zero => exact fun g x y hinv _ => hinv
  | succ n ih =>
    intro g x y hinv hact
    exact floodNbrs_sound (floodFillAux n) ih neighborOffsets (fun d hd => hd) g x y hinv hact

theorem Reach_openable {g : Game} {sx sy a b : Int} (h : Reach g sx sy a b) :
    g.openableB a b = true := by
  induction h with
  | base a b hadj hop => exact hop
  | step m n a b hm he hadj hop ih => exact hop

theorem reach_opened {g r : Game} {sx sy : Int} (hext : Ext g r) (hnbr : NbrSat r sx sy)
    (hnew : NewSat g r) {a b : Int} (hr : Reach g sx sy a b) :
    (r.cellAt a b).state.isOpen = true := by
  induction hr with
  | base a b hadj hop => exact openable_false_open hext a b hop (hnbr a b hadj)
  | step m n a b hm he hadj hop ih =>
    have hopm := Reach_openable hm
    obtain ⟨hinm, hgom, -, -⟩ := openableB_elim g m n hopm
    have hh := hnew m n hinm ih hgom he a b hadj
    exact openable_false_open hext a b hop hh

theorem getD_eq_get {α : Type} (l : List α) (i : Nat) (d : α) (h : i < l.length) :
    l.getD i d = l.get ⟨i, h⟩ := by
  induction l generalizing i with
  | nil => simp at h
  | cons x xs ih =>
    cases i with
    | zero => rfl
    | succ n => simpa using ih n (by simpa using h)

theorem sum_map_le_mul {α : Type} (rows : List α) (f : α → Nat) (k : Nat)
    (h : ∀ r ∈ rows, f r ≤ k) : (rows.map f).sum ≤ rows.length * k := by
  induction rows with
  | nil => simp
  | cons r rs ih =>
    simp only [List.map_cons, List.sum_cons, List.length_cons]
    have h1 := h r (List.mem_cons_self r rs)
    have h2 := ih (fun r2 hr2 => h r2 (List.mem_cons_of_mem r hr2))
    calc f r + (rs.map f).sum ≤ k + rs.length * k := Nat.add_le_add h1 h2
    _ = (rs.length + 1) * k := by ring

theorem row_len_of_mem (g : Game) (hWF : g.WF) (row : List Cell) (h : row ∈ g.field) :
    row.length = g.W := by
  obtain ⟨⟨i, hi⟩, hrow⟩ := List.mem_iff_get.mp h
  have hh := hWF.2 i (by rw [← hWF.1]; exact hi)
  rw [getD_eq_get g.field i [] hi, hrow] at hh
  exact hh

theorem closedCount_le (g : Game) (hWF : g.WF) : g.closedCount ≤ g.W * g.H := by
  unfold Game.closedCount
  have hb : ∀ row ∈ g.field, row.countP (fun c => !c.state.isOpen) ≤ g.W := by
    intro row hrow
    calc row.countP (fun c => !c.state.isOpen) ≤ row.length := List.countP_le_length _
    _ = g.W := row_len_of_mem g hWF row hrow
  calc (g.field.map (fun row => row.countP (fun c => !c.state.isOpen))).sum
      ≤ g.field.length * g.W := sum_map_le_mul g.field _ g.W hb
  _ = g.H * g.W := by rw [hWF.1]
  _ = g.W * g.H := Nat.mul_comm _ _

/-- Full characterisation of `Game::floodFill` on a well-formed board: the
board evolves by opening cells only (`Ext`), and an in-bounds cell ends up
open exactly when it was already open or lies in the reachable region of the
start cell. -/
theorem floodFill_opens (g : Game) (x y : Int) (hWF : g.WF) :
    Ext g (g.floodFill x y) ∧
    ∀ a b : Int, g.inBounds a b = true →
      (((g.floodFill x y).cellAt a b).state.isOpen = true ↔
        (g.cellAt a b).state.isOpen = true ∨ Reach g x y a b) := by
  have hcc : g.closedCount < g.W * g.H + 1 := by
    have := closedCount_le g hWF
    omega
  have hext := floodFillAux_ext (g.W * g.H + 1) g x y
  obtain ⟨hnbr, hnew⟩ := floodFillAux_sat (g.W * g.H + 1) g x y hWF hcc
  have hinv0 : SoundInv g x y g := by
    refine ⟨extRefl g, fun a b _ hro hgo => ?_⟩
    rw [hro] at hgo
    exact absurd hgo (by simp)
  have hsound : SoundInv g x y (floodFillAux (g.W * g.H + 1) g x y) :=
    floodFillAux_sound (g.W * g.H + 1) g x y hinv0 (Or.inl ⟨rfl, rfl⟩)
  refine ⟨hext, fun a b hin => ⟨fun hro => ?_, fun h => ?_⟩⟩
  · cases hgo : (g.cellAt a b).state.isOpen
    · exact Or.inr (hsound.2 a b hin hro hgo)
    · exact Or.inl rfl
  · rcases h with hgo | hr
    · exact hext.openMono a b hgo
    · exact reach_opened hext hnbr hnew hr

/-! ### Win checking -/

theorem checkWinOpen_pos (g : Game) (h : g.allNonMinesOpen = true) :
    g.checkWinOpen = { g with win := true, timerRunning := false } := by
  unfold Game.checkWinOpen Game.stopTimer
  rw [if_pos h]

theorem checkWinOpen_neg (g : Game) (h : g.allNonMinesOpen = false) :
    g.checkWinOpen = g := by
  unfold Game.checkWinOpen
  rw [h]
  simp

theorem checkWinFlags_pos (g : Game) (h1 : g.flagsAllOnMines = true)
    (h2 : g.flagsCount = g.MINES) :
    g.checkWinFlags = { g with win := true, timerRunning := false } := by
  unfold Game.checkWinFlags Game.stopTimer
  rw [if_pos h1, if_pos h2]

theorem checkWinFlags_negCount (g : Game) (h1 : g.flagsAllOnMines = true)
    (h2 : g.flagsCount ≠ g.MINES) : g.checkWinFlags = g := by
  unfold Game.checkWinFlags
  rw [if_pos h1, if_neg h2]

theorem checkWinFlags_negMines (g : Game) (h1 : g.flagsAllOnMines = false) :
    g.checkWinFlags = g := by
  unfold Game.checkWinFlags
  rw [h1]
  simp

theorem checkWin_zeta (g : Game) :
    g.checkWin = if g.checkWinOpen.win = true then g.checkWinOpen
      else g.checkWinOpen.checkWinFlags := rfl

theorem checkWin_shape (g : Game) :
    g.checkWin = g ∨ g.checkWin = { g with win := true, timerRunning := false } := by
  rw [checkWin_zeta]
  by_cases h1 : g.allNonMinesOpen = true
  · rw [checkWinOpen_pos g h1]
    exact Or.inr (by rw [if_pos rfl])
  · rw [checkWinOpen_neg g (by simpa using h1)]
    by_cases hw : g.win = true
    · rw [if_pos hw]
      exact Or.inl rfl
    · rw [if_neg hw]
      by_cases h2 : g.flagsAllOnMines = true
      · by_cases h3 : g.flagsCount = g.MINES
        · rw [checkWinFlags_pos g h2 h3]
          exact Or.inr rfl
        · rw [checkWinFlags_negCount g h2 h3]
          exact Or.inl rfl
      · rw [checkWinFlags_negMines g (by simpa using h2)]
        exact Or.inl rfl

theorem checkWin_fields (g : Game) :
    g.checkWin.field = g.field ∧ g.checkWin.W = g.W ∧ g.checkWin.H = g.H
      ∧ g.checkWin.MINES = g.MINES ∧ g.checkWin.gameOver = g.gameOver
      ∧ g.checkWin.firstClick = g.firstClick ∧ g.checkWin.explosion = g.explosion
      ∧ g.checkWin.explosionTimer = g.explosionTimer
      ∧ g.checkWin.timeElapsed = g.timeElapsed := by
  rcases checkWin_shape g with h | h <;> rw [h] <;>
    exact ⟨rfl, rfl, rfl, rfl, rfl, rfl, rfl, rfl, rfl⟩

theorem checkWin_cellAt (g : Game) (a b : Int) : g.checkWin.cellAt a b = g.cellAt a b := by
  unfold Game.cellAt
  rw [(checkWin_fields g).1]

theorem checkWin_win_true (g : Game) (h1 : g.allNonMinesOpen = true) :
    g.checkWin = { g with win := true, timerRunning := false } := by
  rw [checkWin_zeta, checkWinOpen_pos g h1, if_pos rfl]

theorem checkWin_win_flags (g : Game) (hw : g.win = false) (h1 : g.allNonMinesOpen = false)
    (h2 : g.flagsAllOnMines = true) (h3 : g.flagsCount = g.MINES) :
    g.checkWin = { g with win := true, timerRunning := false } := by
  rw [checkWin_zeta, checkWinOpen_neg g h1, if_neg (by rw [hw]; simp),
    checkWinFlags_pos g h2 h3]

theorem checkWin_no_win (g : Game) (hw : g.win = false) (h1 : g.allNonMinesOpen = false)
    (h2 : g.flagsAllOnMines = false ∨ g.flagsCount ≠ g.MINES) :
    g.checkWin = g := by
  rw [checkWin_zeta, checkWinOpen_neg g h1, if_neg (by rw [hw]; simp)]
  rcases h2 with h2 | h2
  · exact checkWinFlags_negMines g h2
  · cases h4 : g.flagsAllOnMines
    · exact checkWinFlags_negMines g h4
    · exact checkWinFlags_negCount g h4 h2

/-! ### Whole-field boolean scans -/

theorem field_all_iff (g : Game) (hWF : g.WF) (p : Cell → Bool) :
    (g.field.all (fun row => row.all p) = true) ↔
      ∀ a b : Int, g.inBounds a b = true → p (g.cellAt a b) = true := by
  rw [all_iff_getD _ _ []]
  constructor
  · intro h a b hin
    obtain ⟨h0x, hxw, h0y, hyh⟩ := inBounds_elim g a b hin
    have hy : b.toNat < g.field.length := by rw [hWF.1]; omega
    have hrow := h b.toNat hy
    rw [all_iff_getD _ _ initialCell] at hrow
    apply hrow
    rw [hWF.2 b.toNat (by omega)]
    omega
  · intro h i hi
    rw [all_iff_getD _ _ initialCell]
    intro j hj
    have hiH : i < g.H := by rw [← hWF.1]; exact hi
    have hjW : j < g.W := by rw [← hWF.2 i hiH]; exact hj
    have hin : g.inBounds (j : Int) (i : Int) = true := by
      unfold Game.inBounds
      simp only [Bool.and_eq_true, decide_eq_true_eq]
      omega
    have hh := h (j : Int) (i : Int) hin
    unfold Game.cellAt at hh
    simpa using hh

theorem allNonMinesOpen_iff (g : Game) (hWF : g.WF) :
    g.allNonMinesOpen = true ↔ ∀ a b : Int, g.inBounds a b = true →
      (g.cellAt a b).content.isMine = false → (g.cellAt a b).state.isOpen = true := by
  unfold Game.allNonMinesOpen
  rw [field_all_iff g hWF]
  constructor
  · intro h a b hin hm
    have hh := h a b hin
    rw [hm] at hh
    simpa using hh
  · intro h a b hin
    cases hm : (g.cellAt a b).content.isMine
    · simp [h a b hin hm]
    · simp

theorem flagsAllOnMines_iff (g : Game) (hWF : g.WF) :
    g.flagsAllOnMines = true ↔ ∀ a b : Int, g.inBounds a b = true →
      (g.cellAt a b).state.isFlagged = true → (g.cellAt a b).content.isMine = true := by
  unfold Game.flagsAllOnMines
  rw [field_all_iff g hWF]
  constructor
  · intro h a b hin hf
    have hh := h a b hin
    rw [hf] at hh
    simpa using hh
  · intro h a b hin
    cases hf : (g.cellAt a b).state.isFlagged
    · simp
    · simp [h a b hin hf]

/-! ### The reachable region before and after opening the clicked cell -/

theorem inBounds_setCell (g : Game) (x y : Int) (c : Cell) (a b : Int) :
    (g.setCell x y c).inBounds a b = g.inBounds a b := rfl

theorem content_setState (g : Game) (x y : Int) (s : CellState) (a b : Int) :
    ((g.setState x y s).cellAt a b).content = (g.cellAt a b).content := by
  unfold Game.setState
  rw [cellAt_setCell]
  split
  · rename_i hh
    show (g.cellAt x y).content = (g.cellAt a b).content
    rw [cellAt_toNat g x y a b hh.1 hh.2.1]
  · rfl

theorem openable_setOpened_of_ne {g : Game} {x y a b : Int} (hWF : g.WF)
    (hin : g.inBounds x y = true) (hop : g.openableB a b = true) (hne : ¬(a = x ∧ b = y)) :
    (g.setState x y CellState.Opened).openableB a b = true := by
  have hopg := openableB_elim g a b hop
  have hne2 : ¬(x.toNat = a.toNat ∧ y.toNat = b.toNat) := by
    intro hh
    obtain ⟨h1, h2⟩ := inBounds_toNat_inj g x y a b hin hopg.1 hh.1 hh.2
    exact hne ⟨h1.symm, h2.symm⟩
  unfold Game.openableB
  rw [cellAt_setState_of_ne g x y a b _ hne2]
  exact hop

theorem reach_setOpened_subset {g : Game} {x y : Int}
    (hcl : (g.cellAt x y).state = CellState.Closed) :
    ∀ a b : Int, Reach (g.setState x y CellState.Opened) x y a b → Reach g x y a b := by
  have hext := Ext_setOpened g x y hcl
  intro a b h
  induction h with
  | base a b hadj hop => exact Reach.base a b hadj (hext.openableTrue a b hop)
  | step m n a b hm he hadj hop ih =>
    refine Reach.step m n a b ih ?_ hadj (hext.openableTrue a b hop)
    rw [← hext.content m n]
    exact he

theorem reach_setOpened_super {g : Game} {x y : Int} (hWF : g.WF)
    (hin : g.inBounds x y = true) :
    ∀ a b : Int, Reach g x y a b →
      Reach (g.setState x y CellState.Opened) x y a b ∨ (a = x ∧ b = y) := by
  intro a b h
  induction h with
  | base a b hadj hop =>
    by_cases he : a = x ∧ b = y
    · exact Or.inr he
    · exact Or.inl (Reach.base a b hadj (openable_setOpened_of_ne hWF hin hop he))
  | step m n a b hm he hadj hop ih =>
    by_cases hab : a = x ∧ b = y
    · exact Or.inr hab
    · have hop1 := openable_setOpened_of_ne hWF hin hop hab
      rcases ih with hm1 | hroot
      · refine Or.inl (Reach.step m n a b hm1 ?_ hadj hop1)
        rw [content_setState g x y CellState.Opened m n]
        exact he
      · exact Or.inl (Reach.base a b (hroot.1 ▸ hroot.2 ▸ hadj) hop1)

theorem isEmpty_not_mine (c : CellContent) (h : c.isEmpty = true) : c.isMine = false := by
  cases c
  · exact absurd h (by simp [CellContent.isEmpty])
  · rfl

theorem revealEmpty_unfold (g : Game) (rs : List (Nat × Nat)) (x y : Int)
    (hgo : g.gameOver = false) (hwin : g.win = false) (hfc : g.firstClick = false)
    (hcl : (g.cellAt x y).state = CellState.Closed)
    (hemp : (g.cellAt x y).content.isEmpty = true) :
    g.revealFromState rs x y = ((g.setState x y CellState.Opened).floodFill x y).checkWin := by
  unfold Game.revealFromState
  rw [hgo, hwin]
  simp only [Bool.or_self, Bool.false_eq_true, if_false]
  rw [hcl]
  simp only [CellState.isOpen, CellState.isFlagged, Bool.or_self, Bool.false_eq_true, if_false]
  rw [hfc]
  simp only [Bool.false_eq_true, if_false]
  rw [isEmpty_not_mine _ hemp]
  simp only [Bool.false_eq_true, if_false]
  rw [hemp]
  simp only [if_true]

/-- Amended C1: on a well-formed post-generation non-terminal board, revealing
a closed empty cell `(x, y)` opens exactly the clicked cell plus the region
reachable from it through closed empty cells, without crossing a mine, a
flagged or an already-opened cell (the inductive `Reach`); flags, contents
and the states of mine cells are untouched.  The opened set is given by a
traversal-order-free characterisation, so it does not depend on the visiting
order. -/
theorem claim1_flood_region (g : Game) (rs : List (Nat × Nat)) (x y : Int)
    (hWF : g.WF) (hgo : g.gameOver = false) (hwin : g.win = false)
    (hfc : g.firstClick = false) (hin : g.inBounds x y = true)
    (hcl : (g.cellAt x y).state = CellState.Closed)
    (hemp : (g.cellAt x y).content.isEmpty = true) :
    (∀ a b : Int, g.inBounds a b = true →
      (((g.revealFromState rs x y).cellAt a b).state.isOpen = true ↔
        (g.cellAt a b).state.isOpen = true ∨ (a = x ∧ b = y) ∨ Reach g x y a b))
    ∧ (∀ a b : Int, ((g.revealFromState rs x y).cellAt a b).state.isFlagged
        = (g.cellAt a b).state.isFlagged)
    ∧ (∀ a b : Int, ((g.revealFromState rs x y).cellAt a b).content = (g.cellAt a b).content)
    ∧ (∀ a b : Int, g.inBounds a b = true → (g.cellAt a b).content.isMine = true →
        ((g.revealFromState rs x y).cellAt a b).state = (g.cellAt a b).state) := by
  have hr := revealEmpty_unfold g rs x y hgo hwin hfc hcl hemp
  have hWF2 : (g.setState x y CellState.Opened).WF := WF_setCell g x y _ hWF
  obtain ⟨hext, hiff⟩ := floodFill_opens (g.setState x y CellState.Opened) x y hWF2
  have hext2 := Ext_setOpened g x y hcl
  have hne_of : ∀ a b : Int, g.inBounds a b = true → ¬(a = x ∧ b = y) →
      ¬(x.toNat = a.toNat ∧ y.toNat = b.toNat) := by
    intro a b hinab he hh
    obtain ⟨h1, h2⟩ := inBounds_toNat_inj g x y a b hin hinab hh.1 hh.2
    exact he ⟨h1.symm, h2.symm⟩
  have hopen2 : ∀ a b : Int, g.inBounds a b = true →
      (((g.setState x y CellState.Opened).cellAt a b).state.isOpen = true ↔
        (g.cellAt a b).state.isOpen = true ∨ (a = x ∧ b = y)) := by
    intro a b hinab
    by_cases he : a = x ∧ b = y
    · rw [he.1, he.2, cellAt_setState_self g x y _ hWF hin]
      exact ⟨fun _ => Or.inr ⟨rfl, rfl⟩, fun _ => rfl⟩
    · rw [cellAt_setState_of_ne g x y a b _ (hne_of a b hinab he)]
      exact ⟨Or.inl, fun h => h.elim id (fun hh => absurd hh he)⟩
  have hin2 : ∀ a b : Int, (g.setState x y CellState.Opened).inBounds a b = g.inBounds a b :=
    fun a b => rfl
  refine ⟨fun a b hinab => ?_, fun a b => ?_, fun a b => ?_, fun a b hinab hmine => ?_⟩
  · rw [hr, checkWin_cellAt]
    rw [hiff a b (by rw [hin2]; exact hinab)]
    rw [hopen2 a b hinab]
    constructor
    · rintro ((ho | he) | hrr)
      · exact Or.inl ho
      · exact Or.inr (Or.inl he)
      · exact Or.inr (Or.inr (reach_setOpened_subset hcl a b hrr))
    · rintro (ho | he | hrr)
      · exact Or.inl (Or.inl ho)
      · exact Or.inl (Or.inr he)
      · rcases reach_setOpened_super hWF hin a b hrr with hh | hh
        · exact Or.inr hh
        · exact Or.inl (Or.inr hh)
  · rw [hr, checkWin_cellAt, hext.flagEq a b, hext2.flagEq a b]
  · rw [hr, checkWin_cellAt, hext.content a b, content_setState]
  · rw [hr, checkWin_cellAt]
    have hne : ¬(a = x ∧ b = y) := by
      intro hh
      rw [hh.1, hh.2] at hmine
      rw [isEmpty_not_mine _ hemp] at hmine
      exact absurd hmine (by simp)
    have hcell2 : (g.setState x y CellState.Opened).cellAt a b = g.cellAt a b :=
      cellAt_setState_of_ne g x y a b _ (hne_of a b hinab hne)
    rcases hext.stateStep a b with hh | hh
    · rw [hh, hcell2]
    · exfalso
      have hro : (((g.setState x y CellState.Opened).floodFill x y).cellAt a b).state.isOpen
          = true := by
        rw [hh.1]
        rfl
      rw [hiff a b (by rw [hin2]; exact hinab)] at hro
      rcases hro with hro | hro
      · rw [hcell2] at hh hro
        rw [hh.2] at hro
        exact absurd hro (by simp [CellState.isOpen])
      · have := Reach_openable hro
        obtain ⟨-, -, -, hm2⟩ := openableB_elim _ a b this
        rw [hcell2] at hm2
        rw [hmine] at hm2
        exact absurd hm2 (by simp)

/-- Counterexample to C1 as stated: `gameBlockedRow` is a reachable
post-generation non-terminal 5x1 session (one mine at `(4,0)`, the empty cell
`(2,0)` already open, no flags).  Cell `(3,0)` lies in the region the claim
describes for a reveal at the closed empty cell `(0,0)` — it is reachable
through empty cells without crossing a mine or a flagged cell — yet the
reveal leaves `(3,0)` closed, because the flood fill does not recurse through
the already-opened cell `(2,0)`. -/
theorem claim1_counterexample :
    SpecReach gameBlockedRow 0 0 3 0
    ∧ gameBlockedRow.gameOver = false ∧ gameBlockedRow.win = false
    ∧ gameBlockedRow.firstClick = false
    ∧ (gameBlockedRow.cellAt 0 0).state = CellState.Closed
    ∧ (gameBlockedRow.cellAt 0 0).content.isEmpty = true
    ∧ ((gameBlockedRow.revealFromState [] 0 0).cellAt 3 0).state.isOpen = false := by
  refine ⟨?_, by decide, by decide, by decide, by decide, by decide, by decide⟩
  have h1 : SpecReach gameBlockedRow 0 0 1 0 :=
    SpecReach.base 1 0 (by decide) (by decide)
  have h2 : SpecReach gameBlockedRow 0 0 2 0 :=
    SpecReach.step 1 0 2 0 h1 (by decide) (by decide) (by decide)
  exact SpecReach.step 2 0 3 0 h2 (by decide) (by decide) (by decide)

/-- Witness for the amended C1 on a concrete board: revealing the closed empty
corner of `gameEmptyRow` opens its neighbour `(1, 0)`, per the region
characterisation. -/
theorem claim1_witness :
    ((gameEmptyRow.revealFromState [] 0 0).cellAt 1 0).state.isOpen = true ↔
      (gameEmptyRow.cellAt 1 0).state.isOpen = true ∨ ((1 : Int) = 0 ∧ (0 : Int) = 0)
        ∨ Reach gameEmptyRow 0 0 1 0 :=
  (claim1_flood_region gameEmptyRow [] 0 0 (by decide) (by decide) (by decide) (by decide)
    (by decide) (by decide) (by decide)).1 1 0 (by decide)

/-! ### C3: terminal-state absorption -/

/-- Counterexample to C3 as stated: `gameFlagWin` is a reachable session with
`win = true` and the mine cell `(3, 2)` flagged; a further right click on that
cell changes its state to Closed (`FlaggedState::onRightClick` has no terminal
guard). -/
theorem claim3_counterexample :
    gameFlagWin.win = true
    ∧ (gameFlagWin.cellAt 3 2).state = CellState.Flagged
    ∧ ((gameFlagWin.rightClickCell 3 2).cellAt 3 2).state = CellState.Closed := by
  refine ⟨by decide, by decide, by decide⟩

/-- Amended C3: in a terminal session every left click is absorbed, and a
right click is absorbed unless the cell is Flagged, in which case it is set to
Closed (and nothing else changes) even though the session is terminal. -/
theorem claim3_terminal_absorption (g : Game) (rs : List (Nat × Nat)) (x y : Int)
    (hterm : g.gameOver = true ∨ g.win = true) :
    g.leftClickCell rs x y = g
    ∧ ((g.cellAt x y).state ≠ CellState.Flagged → g.rightClickCell x y = g)
    ∧ ((g.cellAt x y).state = CellState.Flagged →
        g.rightClickCell x y = g.setState x y CellState.Closed) := by
  have hor : (g.gameOver || g.win) = true := by
    rcases hterm with h | h <;> simp [h]
  refine ⟨?_, ?_, ?_⟩
  · unfold Game.leftClickCell
    cases hs : (g.cellAt x y).state
    · unfold Game.revealFromState
      rw [hor]
      simp
    · rfl
    · rfl
  · intro hnf
    unfold Game.rightClickCell
    cases hs : (g.cellAt x y).state
    · unfold Game.toggleFlagFromState
      rw [hor]
      simp
    · rfl
    · exact absurd hs hnf
  · intro hf
    unfold Game.rightClickCell
    rw [hf]

/-- Witness for the amended C3 at the reachable winning session
`gameFlagWin`. -/
theorem claim3_witness :
    gameFlagWin.leftClickCell [] 0 0 = gameFlagWin
      ∧ gameFlagWin.rightClickCell 0 0 = gameFlagWin := by
  have h := claim3_terminal_absorption gameFlagWin [] 0 0 (Or.inr (by decide))
  exact ⟨h.1, h.2.1 (by decide)⟩

/-! ### C4: the win check -/

/-- C4: on a well-formed non-terminal session, `checkWin` sets `win` exactly
when every in-bounds non-mine cell is open, or every flagged cell is a mine
and the flag count equals `MINES`; on a win the timer is stopped, and
otherwise the session is returned unchanged. -/
theorem claim4_check_win (g : Game) (hWF : g.WF) (hgo : g.gameOver = false)
    (hwin : g.win = false) :
    (g.checkWin.win = true ↔
      ((∀ a b : Int, g.inBounds a b = true → (g.cellAt a b).content.isMine = false →
          (g.cellAt a b).state.isOpen = true)
        ∨ ((∀ a b : Int, g.inBounds a b = true → (g.cellAt a b).state.isFlagged = true →
            (g.cellAt a b).content.isMine = true) ∧ g.flagsCount = g.MINES)))
    ∧ (g.checkWin.win = true → g.checkWin.timerRunning = false)
    ∧ (g.checkWin.win = false → g.checkWin = g) := by
  refine ⟨?_, ?_, ?_⟩
  · rw [← allNonMinesOpen_iff g hWF, ← flagsAllOnMines_iff g hWF]
    constructor
    · intro h
      by_cases h1 : g.allNonMinesOpen = true
      · exact Or.inl h1
      · by_cases h2 : g.flagsAllOnMines = true
        · by_cases h3 : g.flagsCount = g.MINES
          · exact Or.inr ⟨h2, h3⟩
          · rw [checkWin_no_win g hwin (by simpa using h1) (Or.inr h3)] at h
            rw [hwin] at h
            exact absurd h (by simp)
        · rw [checkWin_no_win g hwin (by simpa using h1) (Or.inl (by simpa using h2))] at h
          rw [hwin] at h
          exact absurd h (by simp)
    · rintro (h | ⟨h2, h3⟩)
      · rw [checkWin_win_true g h]
      · by_cases h1 : g.allNonMinesOpen = true
        · rw [checkWin_win_true g h1]
        · rw [checkWin_win_flags g hwin (by simpa using h1) h2 h3]
  · intro h
    rcases checkWin_shape g with hh | hh
    · rw [hh] at h
      rw [hwin] at h
      exact absurd h (by simp)
    · rw [hh]
  · intro h
    rcases checkWin_shape g with hh | hh
    · exact hh
    · rw [hh] at h
      exact absurd h (by simp)

/-- Witness for C4: on `gameFlaggedMine` the flag-based condition holds, so
`checkWin` wins and stops the timer. -/
theorem claim4_witness : gameFlaggedMine.checkWin.timerRunning = false :=
  (claim4_check_win gameFlaggedMine (by decide) (by decide) (by decide)).2.1 (by decide)

/-! ### C5: revealing a mine -/

theorem getD_map {α β : Type} (l : List α) (f : α → β) (i : Nat) (d : β) (d2 : α)
    (h : i < l.length) : (l.map f).getD i d = f (l.getD i d2) := by
  induction l generalizing i with
  | nil => simp at h
  | cons x xs ih =>
    cases i with
    | zero => rfl
    | succ n => simpa using ih n (by simpa using h)

theorem cellAt_revealAll (g : Game) (a b : Int) (hWF : g.WF) (hin : g.inBounds a b = true) :
    g.revealAll.cellAt a b = { g.cellAt a b with state := CellState.Opened } := by
  obtain ⟨hb1, hb2⟩ := inBounds_bounds g a b hWF hin
  unfold Game.revealAll Game.cellAt
  rw [getD_map g.field _ b.toNat [] [] hb1, getD_map _ _ a.toNat initialCell initialCell hb2]

theorem cellAt_congr_field (g1 g2 : Game) (a b : Int) (h : g1.field = g2.field) :
    g1.cellAt a b = g2.cellAt a b := by
  unfold Game.cellAt
  rw [h]

theorem cellAt_triggerExplosion (g : Game) (a b : Int) (hWF : g.WF)
    (hin : g.inBounds a b = true) :
    (g.triggerExplosion.cellAt a b).state = CellState.Opened := by
  have hc : g.triggerExplosion.cellAt a b
      = (({ g with explosion := true, explosionTimer := (1 : Rat) / 5 } : Game).revealAll).cellAt
          a b :=
    cellAt_congr_field _ _ a b rfl
  rw [hc, cellAt_revealAll { g with explosion := true, explosionTimer := (1 : Rat) / 5 } a b
    hWF hin]

/-- C5: on a well-formed post-generation non-terminal session, revealing a
closed unflagged mine cell sets `gameOver`, stops the timer, activates the
explosion flag with a positive countdown, and opens every in-bounds cell. -/
theorem claim5_loss (g : Game) (rs : List (Nat × Nat)) (x y : Int) (hWF : g.WF)
    (hgo : g.gameOver = false) (hwin : g.win = false) (hfc : g.firstClick = false)
    (hin : g.inBounds x y = true) (hcl : (g.cellAt x y).state = CellState.Closed)
    (hmine : (g.cellAt x y).content.isMine = true) :
    (g.revealFromState rs x y).gameOver = true
    ∧ (g.revealFromState rs x y).timerRunning = false
    ∧ (g.revealFromState rs x y).explosion = true
    ∧ 0 < (g.revealFromState rs x y).explosionTimer
    ∧ ∀ a b : Int, g.inBounds a b = true →
        ((g.revealFromState rs x y).cellAt a b).state.isOpen = true := by
  have hr : g.revealFromState rs x y = (g.setState x y CellState.Opened).triggerExplosion := by
    unfold Game.revealFromState
    rw [hgo, hwin]
    simp only [Bool.or_self, Bool.false_eq_true, if_false]
    rw [hcl]
    simp only [CellState.isOpen, CellState.isFlagged, Bool.or_self, Bool.false_eq_true, if_false]
    rw [hfc]
    simp only [Bool.false_eq_true, if_false]
    rw [hmine]
    simp only [if_true]
  rw [hr]
  have hWF2 : (g.setState x y CellState.Opened).WF := WF_setCell g x y _ hWF
  refine ⟨rfl, rfl, rfl, ?_, ?_⟩
  · show (0 : Rat) < (1 : Rat) / 5
    norm_num
  · intro a b hinab
    have hh := cellAt_triggerExplosion (g.setState x y CellState.Opened) a b hWF2 hinab
    rw [hh]
    rfl

/-- Witness for C5: revealing the closed mine of `gameClosedMine` sets
`gameOver`. -/
theorem claim5_witness : (gameClosedMine.revealFromState [] 0 0).gameOver = true :=
  (claim5_loss gameClosedMine [] 0 0 (by decide) (by decide) (by decide) (by decide)
    (by decide) (by decide) (by decide)).1

/-! ### C6: the double flag toggle -/

/-- Counterexample to C6 as stated: on the reachable non-terminal session
`gameFlagWinSetup`, right-clicking the closed mine cell `(3, 2)` twice does
return the cell to Closed, but the intermediate flag completes the flag-based
win, so the session flag `win` differs from its value before the first
call. -/
theorem claim6_counterexample :
    gameFlagWinSetup.gameOver = false ∧ gameFlagWinSetup.win = false
    ∧ (gameFlagWinSetup.cellAt 3 2).state = CellState.Closed
    ∧ (((gameFlagWinSetup.rightClickCell 3 2).rightClickCell 3 2).cellAt 3 2).state
        = CellState.Closed
    ∧ ((gameFlagWinSetup.rightClickCell 3 2).rightClickCell 3 2).win = true := by
  refine ⟨by decide, by decide, by decide, by decide, by decide⟩

theorem setGrid_setGrid (f : List (List Cell)) (x y : Nat) (c1 c2 : Cell)
    (hy : y < f.length) :
    setGrid (setGrid f x y c1) x y c2 = setGrid f x y c2 := by
  unfold setGrid
  rw [getD_set_self _ _ _ _ hy, List.set_set, List.set_set]

theorem setGrid_restore (f : List (List Cell)) (x y : Nat) (c : Cell)
    (hy : y < f.length) (hx : x < (f.getD y []).length)
    (hc : c = (f.getD y []).getD x initialCell) :
    setGrid f x y c = f := by
  unfold setGrid
  rw [hc, set_getD_self _ _ _ hx, set_getD_self _ _ _ hy]

theorem setState_restore (g : Game) (x y : Int) (hWF : g.WF) (hin : g.inBounds x y = true)
    (s : CellState) :
    (g.setState x y s).setState x y ((g.cellAt x y).state) = g := by
  obtain ⟨hb1, hb2⟩ := inBounds_bounds g x y hWF hin
  have hcell : (g.setState x y s).cellAt x y = { g.cellAt x y with state := s } :=
    cellAt_setState_self g x y s hWF hin
  show Game.setCell _ x y _ = g
  rw [hcell]
  show { g with field := setGrid (setGrid g.field x.toNat y.toNat _) x.toNat y.toNat _ } = g
  rw [setGrid_setGrid g.field x.toNat y.toNat _ _ hb1]
  have hgr := setGrid_restore g.field x.toNat y.toNat
    ((g.field.getD y.toNat []).getD x.toNat initialCell) hb1 hb2 rfl
  show { g with
    field := setGrid g.field x.toNat y.toNat
      ((g.field.getD y.toNat []).getD x.toNat initialCell) } = g
  rw [hgr]

/-- Amended C6: on a well-formed non-terminal session, toggling the flag of a
closed cell twice restores the session exactly — every cell and every session
flag — provided the intermediate flagging does not complete the flag-based
win (without that proviso the intermediate `checkWin` call sets `win`, as the
counterexample shows, and the unflagging right click never clears it). -/
theorem claim6_toggle_involution (g : Game) (x y : Int) (hWF : g.WF)
    (hgo : g.gameOver = false) (hwin : g.win = false) (hin : g.inBounds x y = true)
    (hcl : (g.cellAt x y).state = CellState.Closed)
    (hnw : (g.rightClickCell x y).win = false) :
    (g.rightClickCell x y).rightClickCell x y = g := by
  have h1 : g.rightClickCell x y = (g.setState x y CellState.Flagged).checkWin := by
    unfold Game.rightClickCell
    rw [hcl]
    unfold Game.toggleFlagFromState
    rw [hgo, hwin]
    simp only [Bool.or_self, Bool.false_eq_true, if_false]
    rw [hcl]
    simp only [CellState.isOpen, CellState.isFlagged, Bool.false_eq_true, if_false]
  have hcw : (g.setState x y CellState.Flagged).checkWin = g.setState x y CellState.Flagged := by
    rcases checkWin_shape (g.setState x y CellState.Flagged) with h | h
    · exact h
    · rw [h1, h] at hnw
      exact absurd hnw (by simp)
  have h2 : g.rightClickCell x y = g.setState x y CellState.Flagged := by
    rw [h1, hcw]
  have hflag : ((g.setState x y CellState.Flagged).cellAt x y).state = CellState.Flagged := by
    rw [cellAt_setState_self g x y _ hWF hin]
  rw [h2]
  unfold Game.rightClickCell
  rw [hflag]
  have hh := setState_restore g x y hWF hin CellState.Flagged
  rw [hcl] at hh
  exact hh

/-- Witness for the amended C6: double-toggling the closed non-mine cell
`(0, 1)` of `gameFlagWinSetup` (whose flagging does not complete a win)
restores the session. -/
theorem claim6_witness :
    (gameFlagWinSetup.rightClickCell 0 1).rightClickCell 0 1 = gameFlagWinSetup :=
  claim6_toggle_involution gameFlagWinSetup 0 1 (by decide) (by decide) (by decide)
    (by decide) (by decide) (by decide)

/-! ### C8: the frame tick -/

/-- Counterexample to C8 as stated: on `gameExploding` (explosion active,
countdown `0.2`) a tick of exactly `0.2` brings the countdown to zero, yet
the explosion flag stays set — the source clears it only when the countdown
drops strictly below zero. -/
theorem claim8_counterexample :
    gameExploding.explosion = true ∧ gameExploding.explosionTimer = (1 : Rat) / 5
    ∧ (gameExploding.update ((1 : Rat) / 5)).explosionTimer = 0
    ∧ (gameExploding.update ((1 : Rat) / 5)).explosion = true := by
  have hne : ¬(gameExploding.explosionTimer - (1 : Rat) / 5 < 0) := by
    show ¬((1 : Rat) / 5 - 1 / 5 < 0)
    norm_num
  have hu : gameExploding.update ((1 : Rat) / 5)
      = { gameExploding with explosionTimer := gameExploding.explosionTimer - (1 : Rat) / 5 } := by
    unfold Game.update
    simp only [show gameExploding.explosion = true from rfl, if_neg hne]
    rfl
  refine ⟨rfl, rfl, ?_, ?_⟩
  · rw [hu]
    show (1 : Rat) / 5 - 1 / 5 = 0
    norm_num
  · rw [hu]
    rfl

/-- Amended C8: `tick(dt)` decrements the explosion countdown by `dt` when the
explosion flag is active, clearing the flag exactly when the countdown drops
strictly below zero; it adds `dt` to the elapsed time exactly when the timer
is running and the game is neither won nor over; and it mutates nothing
else. -/
theorem scalEq_refl (g : Game) : ScalEq g g :=
  ⟨rfl, rfl, rfl, rfl, rfl, rfl, rfl, rfl, rfl, rfl⟩

theorem scalEq_trans {g1 g2 g3 : Game} (h12 : ScalEq g1 g2) (h23 : ScalEq g2 g3) :
    ScalEq g1 g3 :=
  ⟨h23.1.trans h12.1, h23.2.1.trans h12.2.1, h23.2.2.1.trans h12.2.2.1,
    h23.2.2.2.1.trans h12.2.2.2.1, h23.2.2.2.2.1.trans h12.2.2.2.2.1,
    h23.2.2.2.2.2.1.trans h12.2.2.2.2.2.1, h23.2.2.2.2.2.2.1.trans h12.2.2.2.2.2.2.1,
    h23.2.2.2.2.2.2.2.1.trans h12.2.2.2.2.2.2.2.1,
    h23.2.2.2.2.2.2.2.2.1.trans h12.2.2.2.2.2.2.2.2.1,
    h23.2.2.2.2.2.2.2.2.2.trans h12.2.2.2.2.2.2.2.2.2⟩

theorem Ext.scalEq {g r : Game} (h : Ext g r) : ScalEq g r := h.scal

theorem scalEq_setCell (g : Game) (x y : Int) (c : Cell) : ScalEq g (g.setCell x y c) :=
  ⟨rfl, rfl, rfl, rfl, rfl, rfl, rfl, rfl, rfl, rfl⟩

theorem scalEq_clearContent (g : Game) : ScalEq g g.clearContent :=
  ⟨rfl, rfl, rfl, rfl, rfl, rfl, rfl, rfl, rfl, rfl⟩

theorem scalEq_placeMines (sx sy : Int) :
    ∀ (rs : List (Nat × Nat)) (g : Game) (p : Nat),
      ScalEq g (placeMines g sx sy p rs).1 := by
  intro rs
  induction rs with
  | nil => exact fun g p => scalEq_refl g
  | cons r rs ih =>
    intro g p
    show ScalEq g (placeMines g sx sy p (r :: rs)).1
    unfold placeMines
    split
    · split
      · exact ih g p
      · split
        · exact ih g p
        · exact scalEq_trans (scalEq_setCell g _ _ _) (ih _ _)
    · exact scalEq_refl g

theorem foldl_preserve {α : Type} (P : Game → Prop) (f : Game → α → Game)
    (h : ∀ g a, P g → P (f g a)) :
    ∀ (l : List α) (g : Game), P g → P (l.foldl f g) := by
  intro l
  induction l with
  | nil => exact fun g hg => hg
  | cons a l ih => exact fun g hg => ih _ (h g a hg)

theorem scalEq_computeNumbers (g : Game) : ScalEq g g.computeNumbers := by
  unfold Game.computeNumbers
  refine foldl_preserve (ScalEq g) _ ?_ (List.range g.H) g (scalEq_refl g)
  intro gy y hgy
  refine foldl_preserve (ScalEq g) _ ?_ (List.range g.W) gy hgy
  intro gx x hgx
  split
  · exact hgx
  · exact scalEq_trans hgx (scalEq_setCell gx _ _ _)

theorem scalEq_generate (g : Game) (rs : List (Nat × Nat)) (sx sy : Int) :
    ScalEq g (g.generate rs sx sy) := by
  unfold Game.generate
  exact scalEq_trans
    (scalEq_trans (scalEq_clearContent g) (scalEq_placeMines sx sy rs g.clearContent 0))
    (scalEq_computeNumbers _)

theorem startTimer_keep (g : Game) :
    (g.startTimerIfNeeded).win = g.win ∧ (g.startTimerIfNeeded).gameOver = g.gameOver
      ∧ (g.startTimerIfNeeded).firstClick = g.firstClick := by
  unfold Game.startTimerIfNeeded
  split
  · exact ⟨rfl, rfl, rfl⟩
  · exact ⟨rfl, rfl, rfl⟩

/-- Case analysis of an accepted `revealFromState` call: the board is first
regenerated on a first click, then either the clicked cell is a mine and the
explosion fires, or it is opened, possibly flood-filled, and the win check
runs. -/
theorem reveal_cases (g : Game) (rs : List (Nat × Nat)) (x y : Int)
    (hgo : g.gameOver = false) (hwin : g.win = false)
    (hno : ((g.cellAt x y).state.isOpen || (g.cellAt x y).state.isFlagged) = false) :
    ∃ g1 : Game, (g1 = if g.firstClick = true
        then Game.startTimerIfNeeded { g.generate rs x y with firstClick := false } else g)
      ∧ (((g1.cellAt x y).content.isMine = true ∧
           g.revealFromState rs x y = (g1.setState x y CellState.Opened).triggerExplosion)
        ∨ ((g1.cellAt x y).content.isMine = false ∧
           g.revealFromState rs x y =
             (if (g1.cellAt x y).content.isEmpty = true
               then (g1.setState x y CellState.Opened).floodFill x y
               else g1.setState x y CellState.Opened).checkWin)) := by
  refine ⟨_, rfl, ?_⟩
  have hr : g.revealFromState rs x y =
      (if ((if g.firstClick = true
          then Game.startTimerIfNeeded { g.generate rs x y with firstClick := false }
          else g).cellAt x y).content.isMine = true
        then ((if g.firstClick = true
          then Game.startTimerIfNeeded { g.generate rs x y with firstClick := false }
          else g).setState x y CellState.Opened).triggerExplosion
        else (if ((if g.firstClick = true
            then Game.startTimerIfNeeded { g.generate rs x y with firstClick := false }
            else g).cellAt x y).content.isEmpty = true
          then ((if g.firstClick = true
            then Game.startTimerIfNeeded { g.generate rs x y with firstClick := false }
            else g).setState x y CellState.Opened).floodFill x y
          else (if g.firstClick = true
            then Game.startTimerIfNeeded { g.generate rs x y with firstClick := false }
            else g).setState x y CellState.Opened).checkWin) := by
    unfold Game.revealFromState
    rw [hgo, hwin]
    simp only [Bool.or_self, Bool.false_eq_true, if_false]
    rw [hno]
    simp only [Bool.false_eq_true, if_false]
  cases hm : ((if g.firstClick = true
      then Game.startTimerIfNeeded { g.generate rs x y with firstClick := false }
      else g).cellAt x y).content.isMine
  · rw [hm] at hr
    simp only [Bool.false_eq_true, if_false] at hr
    exact Or.inr ⟨rfl, hr⟩
  · rw [hm] at hr
    simp only [if_true] at hr
    exact Or.inl ⟨rfl, hr⟩

theorem update_keep (g : Game) (dt : Rat) :
    (g.update dt).gameOver = g.gameOver ∧ (g.update dt).win = g.win := by
  by_cases he : g.explosion = true <;>
    by_cases ht : g.explosionTimer - dt < 0 <;>
      by_cases hb : (g.timerRunning && !g.gameOver && !g.win) = true <;>
        simp [Game.update, he, ht, hb]

theorem toggle_cases (g : Game) (x y : Int) (hgo : g.gameOver = false)
    (hwin : g.win = false) (hnopen : (g.cellAt x y).state.isOpen = false) :
    g.toggleFlagFromState x y = (if (g.cellAt x y).state.isFlagged = true
      then g.setState x y CellState.Closed else g.setState x y CellState.Flagged).checkWin := by
  unfold Game.toggleFlagFromState
  rw [hgo, hwin]
  simp only [Bool.or_self, Bool.false_eq_true, if_false]
  rw [hnopen]
  simp only [Bool.false_eq_true, if_false]

theorem reveal_inv (g : Game) (rs : List (Nat × Nat)) (x y : Int)
    (hI : ¬(g.gameOver = true ∧ g.win = true)) :
    ¬((g.revealFromState rs x y).gameOver = true ∧ (g.revealFromState rs x y).win = true) := by
  by_cases hguard : (g.gameOver || g.win) = true
  · have hr : g.revealFromState rs x y = g := by
      unfold Game.revealFromState
      rw [hguard]
      simp
    rw [hr]
    exact hI
  · have hgo : g.gameOver = false := by
      cases hh : g.gameOver
      · rfl
      · rw [hh] at hguard
        simp at hguard
    have hwin : g.win = false := by
      cases hh : g.win
      · rfl
      · rw [hh] at hguard
        simp at hguard
    by_cases hno : ((g.cellAt x y).state.isOpen || (g.cellAt x y).state.isFlagged) = true
    · have hr : g.revealFromState rs x y = g := by
        unfold Game.revealFromState
        rw [hgo, hwin]
        simp only [Bool.or_self, Bool.false_eq_true, if_false]
        rw [hno]
        simp
      rw [hr]
      exact hI
    · obtain ⟨g1, hg1, hcase⟩ := reveal_cases g rs x y hgo hwin (by simpa using hno)
      have hg1win : g1.win = false := by
        rw [hg1]
        split
        · rw [(startTimer_keep _).1]
          show (g.generate rs x y).win = false
          rw [(scalEq_generate g rs x y).2.2.2.2.1]
          exact hwin
        · exact hwin
      have hg1go : g1.gameOver = false := by
        rw [hg1]
        split
        · rw [(startTimer_keep _).2.1]
          show (g.generate rs x y).gameOver = false
          rw [(scalEq_generate g rs x y).2.2.2.1]
          exact hgo
        · exact hgo
      rcases hcase with ⟨hm, heq⟩ | ⟨hm, heq⟩
      · rw [heq]
        rintro ⟨-, hw⟩
        have hw2 : g1.win = true := hw
        rw [hg1win] at hw2
        exact absurd hw2 (by simp)
      · rw [heq]
        rintro ⟨hgo2, -⟩
        rw [(checkWin_fields _).2.2.2.2.1] at hgo2
        revert hgo2
        split
        · intro hgo2
          have h3 := (floodFillAux_ext
            ((g1.setState x y CellState.Opened).W * (g1.setState x y CellState.Opened).H + 1)
            (g1.setState x y CellState.Opened) x y).scal.2.2.2.1
          rw [show ((g1.setState x y CellState.Opened).floodFill x y).gameOver
            = (g1.setState x y CellState.Opened).gameOver from h3] at hgo2
          have h4 : g1.gameOver = true := hgo2
          rw [hg1go] at h4
          exact absurd h4 (by simp)
        · intro hgo2
          have h4 : g1.gameOver = true := hgo2
          rw [hg1go] at h4
          exact absurd h4 (by simp)

theorem toggle_inv (g : Game) (x y : Int) (hI : ¬(g.gameOver = true ∧ g.win = true)) :
    ¬((g.toggleFlagFromState x y).gameOver = true
      ∧ (g.toggleFlagFromState x y).win = true) := by
  by_cases hguard : (g.gameOver || g.win) = true
  · have hr : g.toggleFlagFromState x y = g := by
      unfold Game.toggleFlagFromState
      rw [hguard]
      simp
    rw [hr]
    exact hI
  · have hgo : g.gameOver = false := by
      cases hh : g.gameOver
      · rfl
      · rw [hh] at hguard
        simp at hguard
    have hwin : g.win = false := by
      cases hh : g.win
      · rfl
      · rw [hh] at hguard
        simp at hguard
    by_cases hop : (g.cellAt x y).state.isOpen = true
    · have hr : g.toggleFlagFromState x y = g := by
        unfold Game.toggleFlagFromState
        rw [hgo, hwin]
        simp only [Bool.or_self, Bool.false_eq_true, if_false]
        rw [hop]
        simp
      rw [hr]
      exact hI
    · rw [toggle_cases g x y hgo hwin (by simpa using hop)]
      rintro ⟨hgo2, -⟩
      rw [(checkWin_fields _).2.2.2.2.1] at hgo2
      revert hgo2
      split <;> intro hgo2 <;>
        · have h4 : g.gameOver = true := hgo2
          rw [hgo] at h4
          exact absurd h4 (by simp)

/-- C7: in every session state reachable from construction by clicks, ticks
and resets, `gameOver` and `win` are never both true. -/
theorem claim7_invariant (g : Game) (h : Reachable g) :
    ¬(g.gameOver = true ∧ g.win = true) := by
  induction h with
  | init w hh m =>
    rintro ⟨h1, -⟩
    exact absurd h1 (by simp [mkGame, Game.resetField])
  | step g g2 h1 h2 ih =>
    cases h2 with
    | leftClick rs x y =>
      unfold Game.leftClickCell
      cases hs : (g.cellAt x y).state
      · exact reveal_inv g rs x y ih
      · exact ih
      · exact ih
    | rightClick x y =>
      unfold Game.rightClickCell
      cases hs : (g.cellAt x y).state
      · exact toggle_inv g x y ih
      · exact ih
      · rintro ⟨hgo2, hw2⟩
        exact ih ⟨hgo2, hw2⟩
    | tick dt =>
      rintro ⟨hgo2, hw2⟩
      rw [(update_keep g dt).1] at hgo2
      rw [(update_keep g dt).2] at hw2
      exact ih ⟨hgo2, hw2⟩
    | reset =>
      rintro ⟨h1, -⟩
      exact absurd h1 (by simp [Game.resetField])

/-- Witness for C7 at a freshly constructed session. -/
theorem claim7_witness : ¬((mkGame 4 3 1).gameOver = true ∧ (mkGame 4 3 1).win = true) :=
  claim7_invariant (mkGame 4 3 1) (Reachable.init 4 3 1)

theorem claim8_tick (g : Game) (dt : Rat) (hdt : 0 ≤ dt) :
    ((g.update dt).explosion = true ↔ (g.explosion = true ∧ ¬(g.explosionTimer - dt < 0)))
    ∧ (g.explosion = true → (g.update dt).explosionTimer = g.explosionTimer - dt)
    ∧ (g.explosion = false → (g.update dt).explosionTimer = g.explosionTimer)
    ∧ ((g.update dt).timeElapsed
        = if (g.timerRunning && !g.gameOver && !g.win) = true then g.timeElapsed + dt
          else g.timeElapsed)
    ∧ (g.update dt).W = g.W ∧ (g.update dt).H = g.H ∧ (g.update dt).MINES = g.MINES
    ∧ (g.update dt).gameOver = g.gameOver ∧ (g.update dt).win = g.win
    ∧ (g.update dt).firstClick = g.firstClick
    ∧ (g.update dt).timerRunning = g.timerRunning
    ∧ (g.update dt).field = g.field := by
  by_cases he : g.explosion = true <;>
    by_cases ht : g.explosionTimer - dt < 0 <;>
      by_cases hb : (g.timerRunning && !g.gameOver && !g.win) = true <;>
        simp [Game.update, he, ht, hb]

/-- Witness for the amended C8 at a concrete exploding session. -/
theorem claim8_witness : (gameExploding.update 0).gameOver = gameExploding.gameOver :=
  (claim8_tick gameExploding 0 (le_refl 0)).2.2.2.2.2.2.2.1

/-! ### C2: the board generator -/

theorem countMinesAround_congr (g g2 : Game) (hW : g2.W = g.W) (hH : g2.H = g.H)
    (hm : ∀ a b : Int, (g2.cellAt a b).content.isMine = (g.cellAt a b).content.isMine)
    (x y : Int) : g2.countMinesAround x y = g.countMinesAround x y := by
  unfold Game.countMinesAround
  congr 1
  apply List.filter_congr
  intro d _
  rw [hm (x + d.1) (y + d.2)]
  rw [show g2.inBounds (x + d.1) (y + d.2) = g.inBounds (x + d.1) (y + d.2) from by
    unfold Game.inBounds
    rw [hW, hH]]

theorem countMinesAround_eq_spec (g : Game) (x y : Int) :
    g.countMinesAround x y = g.specNeighborMines x y := by
  unfold Game.countMinesAround Game.specNeighborMines
  rw [List.filter_map, List.length_map]
  rfl

theorem cellAt_mapGrid (f : List (List Cell)) (upd : Cell → Cell) (a b : Int)
    (hdef : upd initialCell = initialCell) :
    ((f.map (fun row => row.map upd)).getD b.toNat []).getD a.toNat initialCell
      = upd ((f.getD b.toNat []).getD a.toNat initialCell) := by
  by_cases hj : b.toNat < f.length
  · rw [getD_map f _ b.toNat [] [] hj]
    by_cases hi : a.toNat < (f.getD b.toNat []).length
    · rw [getD_map _ upd a.toNat initialCell initialCell hi]
    · have h1 : ((f.getD b.toNat []).map upd).length ≤ a.toNat := by
        rw [List.length_map]
        omega
      rw [getD_oob _ _ _ h1, getD_oob (f.getD b.toNat []) a.toNat initialCell (by omega), hdef]
  · have h1 : (f.map (fun row => row.map upd)).length ≤ b.toNat := by
      rw [List.length_map]
      omega
    rw [getD_oob _ _ _ h1, getD_oob f b.toNat [] (by omega)]
    show initialCell = upd initialCell
    rw [hdef]

theorem content_mapGrid (f : List (List Cell)) (upd : Cell → Cell) (a b : Int)
    (hupd : ∀ c, (upd c).content = c.content) :
    (((f.map (fun row => row.map upd)).getD b.toNat []).getD a.toNat initialCell).content
      = ((f.getD b.toNat []).getD a.toNat initialCell).content := by
  by_cases hj : b.toNat < f.length
  · rw [getD_map f _ b.toNat [] [] hj]
    by_cases hi : a.toNat < (f.getD b.toNat []).length
    · rw [getD_map _ upd a.toNat initialCell initialCell hi, hupd]
    · have h1 : ((f.getD b.toNat []).map upd).length ≤ a.toNat := by
        rw [List.length_map]
        omega
      rw [getD_oob _ _ _ h1, getD_oob (f.getD b.toNat []) a.toNat initialCell (by omega)]
  · have h1 : (f.map (fun row => row.map upd)).length ≤ b.toNat := by
      rw [List.length_map]
      omega
    rw [getD_oob _ _ _ h1, getD_oob f b.toNat [] (by omega)]

theorem clearContent_content (g : Game) (a b : Int) :
    (g.clearContent.cellAt a b).content = CellContent.Number 0 := by
  show ((((g.field.map (fun row => row.map (fun c => { c with content := CellContent.Number 0 }))).getD
    b.toNat []).getD a.toNat initialCell)).content = CellContent.Number 0
  rw [cellAt_mapGrid g.field _ a b rfl]

theorem clearContent_WF (g : Game) (hWF : g.WF) : g.clearContent.WF := by
  obtain ⟨h1, h2⟩ := hWF
  constructor
  · show (g.field.map _).length = g.H
    rw [List.length_map]
    exact h1
  · intro i hi
    show ((g.field.map _).getD i []).length = g.W
    rw [getD_map g.field _ i [] [] (by rw [h1]; exact (show i < g.H from hi))]
    rw [List.length_map]
    exact h2 i hi

theorem countP_map_zero (row : List Cell) (upd : Cell → Cell) (p : Cell → Bool)
    (h : ∀ c, p (upd c) = false) : (row.map upd).countP p = 0 := by
  induction row with
  | nil => rfl
  | cons c cs ih => simp [List.countP_cons, h c, ih]

theorem mineCount_clearContent (g : Game) : g.clearContent.mineCount = 0 := by
  show ((g.field.map (fun (row : List Cell) =>
      row.map (fun (c : Cell) => { c with content := CellContent.Number 0 }))).map
    (fun (row : List Cell) => row.countP (fun (c : Cell) => c.content.isMine))).sum = 0
  generalize g.field = f
  induction f with
  | nil => rfl
  | cons row rows ih =>
    simp only [List.map_cons, List.sum_cons]
    rw [countP_map_zero row _ _ (fun c => rfl), ih]

theorem mineCount_setCell (g : Game) (x y : Int) (c : Cell)
    (h3 : y.toNat < g.field.length) (h4 : x.toNat < (g.field.getD y.toNat []).length) :
    (g.setCell x y c).mineCount + (if (g.cellAt x y).content.isMine = true then 1 else 0)
      = g.mineCount + (if c.content.isMine = true then 1 else 0) :=
  countPSum_setGrid g.field x.toNat y.toNat c _ h3 h4

theorem mineCount_setMine (g : Game) (x y : Int)
    (h3 : y.toNat < g.field.length) (h4 : x.toNat < (g.field.getD y.toNat []).length)
    (hnm : (g.cellAt x y).content.isMine = false) :
    (g.setContent x y CellContent.Mine).mineCount = g.mineCount + 1 := by
  have hh := mineCount_setCell g x y { g.cellAt x y with content := CellContent.Mine } h3 h4
  rw [hnm] at hh
  simp only [Bool.false_eq_true, if_false] at hh
  rw [show ({ g.cellAt x y with content := CellContent.Mine } : Cell).content.isMine = true
    from rfl, if_pos rfl] at hh
  exact hh

theorem mineCount_setNumber (g : Game) (x y : Int) (n : Nat)
    (hnm : (g.cellAt x y).content.isMine = false) :
    (g.setContent x y (CellContent.Number n)).mineCount = g.mineCount := by
  unfold Game.setContent
  by_cases h : y.toNat < g.field.length ∧ x.toNat < (g.field.getD y.toNat []).length
  · have hh := mineCount_setCell g x y { g.cellAt x y with content := CellContent.Number n }
      h.1 h.2
    rw [hnm] at hh
    simp only [Bool.false_eq_true, if_false] at hh
    rw [show ({ g.cellAt x y with content := CellContent.Number n } : Cell).content.isMine
      = false from rfl] at hh
    simp only [Bool.false_eq_true, if_false] at hh
    exact hh
  · rw [setCell_oob g x y _ h]

theorem mine_setNumber (g : Game) (x y : Int) (n : Nat)
    (h : (g.cellAt x y).content.isMine = false) (a b : Int) :
    ((g.setContent x y (CellContent.Number n)).cellAt a b).content.isMine
      = (g.cellAt a b).content.isMine := by
  unfold Game.setContent
  rw [cellAt_setCell]
  split
  · rename_i hh
    rw [← cellAt_toNat g x y a b hh.1 hh.2.1, h]
    rfl
  · rfl

theorem inBounds_ofNat (g : Game) (x y : Nat) (hx : x < g.W) (hy : y < g.H) :
    g.inBounds (Int.ofNat x) (Int.ofNat y) = true := by
  unfold Game.inBounds
  simp only [Bool.and_eq_true, decide_eq_true_eq, Int.ofNat_eq_natCast]
  omega

theorem placeMines_safe (safeX safeY : Int) :
    ∀ (rs : List (Nat × Nat)) (g : Game) (p : Nat) (a b : Int),
      g.inBounds a b = true → inSafeZone safeX safeY a b →
      ((placeMines g safeX safeY p rs).1.cellAt a b).content.isMine
        = (g.cellAt a b).content.isMine := by
  intro rs
  induction rs with
  | nil =>
    intro g p a b _ _
    rfl
  | cons r rs ih =>
    intro g p a b hin hsz
    show ((placeMines g safeX safeY p (r :: rs)).1.cellAt a b).content.isMine = _
    unfold placeMines
    split
    · split
      · exact ih g p a b hin hsz
      · split
        · exact ih g p a b hin hsz
        · rename_i hlt hm hsz2
          have hne : ¬((Int.ofNat (r.1 % g.W)).toNat = a.toNat
              ∧ (Int.ofNat (r.2 % g.H)).toNat = b.toNat) := by
            intro hh
            have he := inBounds_elim g a b hin
            simp only [Int.ofNat_eq_natCast] at hh
            have hax : a = Int.ofNat (r.1 % g.W) := by
              simp only [Int.ofNat_eq_natCast]
              omega
            have hby : b = Int.ofNat (r.2 % g.H) := by
              simp only [Int.ofNat_eq_natCast]
              omega
            exact hsz2 ⟨by rw [← hax]; exact hsz.1, by rw [← hby]; exact hsz.2⟩
          rw [ih (g.setContent (Int.ofNat (r.1 % g.W)) (Int.ofNat (r.2 % g.H))
            CellContent.Mine) (p + 1) a b hin hsz]
          rw [show ((g.setContent (Int.ofNat (r.1 % g.W)) (Int.ofNat (r.2 % g.H))
              CellContent.Mine).cellAt a b) = g.cellAt a b from
            cellAt_setCell_of_ne g _ _ a b _ hne]
    · rfl

theorem placeMines_WF (safeX safeY : Int) :
    ∀ (rs : List (Nat × Nat)) (g : Game) (p : Nat), g.WF →
      (placeMines g safeX safeY p rs).1.WF := by
  intro rs
  induction rs with
  | nil => exact fun g p h => h
  | cons r rs ih =>
    intro g p hWF
    show (placeMines g safeX safeY p (r :: rs)).1.WF
    unfold placeMines
    split
    · split
      · exact ih g p hWF
      · split
        · exact ih g p hWF
        · exact ih _ (p + 1) (WF_setCell g _ _ _ hWF)
    · exact hWF

theorem placeMines_count (safeX safeY : Int) :
    ∀ (rs : List (Nat × Nat)) (g : Game) (p : Nat), g.WF → 0 < g.W → 0 < g.H →
      (placeMines g safeX safeY p rs).1.mineCount + p
        = g.mineCount + (placeMines g safeX safeY p rs).2 := by
  intro rs
  induction rs with
  | nil =>
    intro g p _ _ _
    rfl
  | cons r rs ih =>
    intro g p hWF hW hH
    show (placeMines g safeX safeY p (r :: rs)).1.mineCount + p = _
    unfold placeMines
    split
    · split
      · exact ih g p hWF hW hH
      · split
        · exact ih g p hWF hW hH
        · rename_i hlt hm hsz
          have hb1 : (Int.ofNat (r.2 % g.H)).toNat < g.field.length := by
            rw [hWF.1]
            simpa using Nat.mod_lt _ hH
          have hb2 : (Int.ofNat (r.1 % g.W)).toNat
              < (g.field.getD (Int.ofNat (r.2 % g.H)).toNat []).length := by
            rw [show (Int.ofNat (r.2 % g.H)).toNat = r.2 % g.H from rfl]
            rw [hWF.2 _ (Nat.mod_lt _ hH)]
            simpa using Nat.mod_lt _ hW
          have hmc := mineCount_setMine g (Int.ofNat (r.1 % g.W)) (Int.ofNat (r.2 % g.H))
            hb1 hb2 (by simpa using hm)
          have hWF2 : (g.setContent (Int.ofNat (r.1 % g.W)) (Int.ofNat (r.2 % g.H))
              CellContent.Mine).WF := WF_setCell g _ _ _ hWF
          have hih := ih (g.setContent (Int.ofNat (r.1 % g.W)) (Int.ofNat (r.2 % g.H))
            CellContent.Mine) (p + 1) hWF2 hW hH
          rw [hmc] at hih
          omega
    · rfl

theorem foldl_establish {α : Type} (P : Game → Prop) (C : Game → α → Prop)
    (f : Game → α → Game)
    (hP : ∀ g a, P g → P (f g a))
    (hC : ∀ g a a2, P g → C g a2 → C (f g a) a2)
    (hEst : ∀ g a, P g → C (f g a) a) :
    ∀ (l : List α) (g : Game), P g →
      P (l.foldl f g) ∧ ∀ a ∈ l, C (l.foldl f g) a := by
  intro l
  induction l with
  | nil => exact fun g hg => ⟨hg, fun a ha => absurd ha (List.not_mem_nil a)⟩
  | cons a l ih =>
    intro g hg
    have h1 : P (f g a) := hP g a hg
    obtain ⟨hPr, hCr⟩ := ih (f g a) h1
    refine ⟨hPr, fun a2 ha2 => ?_⟩
    rcases List.mem_cons.mp ha2 with h | h
    · subst h
      have hkeep : ∀ (l2 : List α) (g2 : Game), P g2 → C g2 a2 → C (l2.foldl f g2) a2 := by
        intro l2
        induction l2 with
        | nil => exact fun g2 _ hc => hc
        | cons b l2 ih2 => exact fun g2 hp hc => ih2 (f g2 b) (hP g2 b hp) (hC g2 b a2 hp hc)
      exact hkeep l (f g a2) h1 (hEst g a2 hg)
    · exact hCr a2 h

theorem foldl_keep {α : Type} (P : Game → Prop) (C2 : Game → Prop) (f : Game → α → Game)
    (hP : ∀ g a, P g → P (f g a)) (hC : ∀ g a, P g → C2 g → C2 (f g a)) :
    ∀ (l : List α) (g : Game), P g → C2 g → C2 (l.foldl f g) := by
  intro l
  induction l with
  | nil => exact fun g _ hc => hc
  | cons a l ih => exact fun g hp hc => ih (f g a) (hP g a hp) (hC g a hp hc)

theorem computeStep (g0 gx : Game) (x y : Nat)
    (hWF : gx.WF) (hW : gx.W = g0.W) (hH : gx.H = g0.H)
    (hm : ∀ a b : Int, (gx.cellAt a b).content.isMine = (g0.cellAt a b).content.isMine) :
    ((if (gx.cellAt (Int.ofNat x) (Int.ofNat y)).content.isMine = true then gx
      else gx.setContent (Int.ofNat x) (Int.ofNat y)
        (CellContent.Number (gx.countMinesAround (Int.ofNat x) (Int.ofNat y)))).WF
      ∧ (if (gx.cellAt (Int.ofNat x) (Int.ofNat y)).content.isMine = true then gx
        else gx.setContent (Int.ofNat x) (Int.ofNat y)
          (CellContent.Number (gx.countMinesAround (Int.ofNat x) (Int.ofNat y)))).W = g0.W
      ∧ (if (gx.cellAt (Int.ofNat x) (Int.ofNat y)).content.isMine = true then gx
        else gx.setContent (Int.ofNat x) (Int.ofNat y)
          (CellContent.Number (gx.countMinesAround (Int.ofNat x) (Int.ofNat y)))).H = g0.H
      ∧ ∀ a b : Int, (((if (gx.cellAt (Int.ofNat x) (Int.ofNat y)).content.isMine = true then gx
        else gx.setContent (Int.ofNat x) (Int.ofNat y)
          (CellContent.Number (gx.countMinesAround (Int.ofNat x) (Int.ofNat y)))).cellAt
            a b).content.isMine) = (g0.cellAt a b).content.isMine)
    ∧ (∀ x2 y2 : Nat,
        ((gx.cellAt (Int.ofNat x2) (Int.ofNat y2)).content
            = CellContent.Number (g0.countMinesAround (Int.ofNat x2) (Int.ofNat y2))) →
        (((if (gx.cellAt (Int.ofNat x) (Int.ofNat y)).content.isMine = true then gx
          else gx.setContent (Int.ofNat x) (Int.ofNat y)
            (CellContent.Number (gx.countMinesAround (Int.ofNat x) (Int.ofNat y)))).cellAt
              (Int.ofNat x2) (Int.ofNat y2)).content
          = CellContent.Number (g0.countMinesAround (Int.ofNat x2) (Int.ofNat y2))))
    ∧ (x < g0.W → y < g0.H →
        (g0.cellAt (Int.ofNat x) (Int.ofNat y)).content.isMine = false →
        (((if (gx.cellAt (Int.ofNat x) (Int.ofNat y)).content.isMine = true then gx
          else gx.setContent (Int.ofNat x) (Int.ofNat y)
            (CellContent.Number (gx.countMinesAround (Int.ofNat x) (Int.ofNat y)))).cellAt
              (Int.ofNat x) (Int.ofNat y)).content
          = CellContent.Number (g0.countMinesAround (Int.ofNat x) (Int.ofNat y)))) := by
  have hcnt := countMinesAround_congr g0 gx hW hH hm (Int.ofNat x) (Int.ofNat y)
  split
  · rename_i hmine
    refine ⟨⟨hWF, hW, hH, hm⟩, fun x2 y2 hold => hold, fun hx hy hm0 => ?_⟩
    rw [hm (Int.ofNat x) (Int.ofNat y), hm0] at hmine
    exact absurd hmine (by simp)
  · rename_i hmine
    have hnm : (gx.cellAt (Int.ofNat x) (Int.ofNat y)).content.isMine = false := by
      simpa using hmine
    refine ⟨⟨WF_setCell gx _ _ _ hWF, hW, hH, fun a b => by
      rw [mine_setNumber gx _ _ _ hnm a b]
      exact hm a b⟩, fun x2 y2 hold => ?_, fun hx hy hm0 => ?_⟩
    · by_cases he : x = x2 ∧ y = y2
      · rw [← he.1, ← he.2] at hold ⊢
        by_cases hb : (Int.ofNat y).toNat < gx.field.length
            ∧ (Int.ofNat x).toNat < (gx.field.getD (Int.ofNat y).toNat []).length
        · rw [show ((gx.setContent (Int.ofNat x) (Int.ofNat y)
              (CellContent.Number (gx.countMinesAround (Int.ofNat x) (Int.ofNat y)))).cellAt
              (Int.ofNat x) (Int.ofNat y))
            = { gx.cellAt (Int.ofNat x) (Int.ofNat y) with
                content := CellContent.Number
                  (gx.countMinesAround (Int.ofNat x) (Int.ofNat y)) } from by
            unfold Game.setContent
            rw [cellAt_setCell, if_pos ⟨rfl, rfl, hb.1, hb.2⟩]]
          show CellContent.Number (gx.countMinesAround (Int.ofNat x) (Int.ofNat y)) = _
          rw [hcnt]
        · rw [show (gx.setContent (Int.ofNat x) (Int.ofNat y)
              (CellContent.Number (gx.countMinesAround (Int.ofNat x) (Int.ofNat y))))
            = gx from setCell_oob gx _ _ _ hb]
          exact hold
      · have hne : ¬((Int.ofNat x).toNat = (Int.ofNat x2).toNat
            ∧ (Int.ofNat y).toNat = (Int.ofNat y2).toNat) := by
          intro hh
          exact he ⟨hh.1, hh.2⟩
        rw [show ((gx.setContent (Int.ofNat x) (Int.ofNat y)
            (CellContent.Number (gx.countMinesAround (Int.ofNat x) (Int.ofNat y)))).cellAt
            (Int.ofNat x2) (Int.ofNat y2)) = gx.cellAt (Int.ofNat x2) (Int.ofNat y2) from
          cellAt_setCell_of_ne gx _ _ _ _ _ hne]
        exact hold
    · have hin : gx.inBounds (Int.ofNat x) (Int.ofNat y) = true :=
        inBounds_ofNat gx x y (by rw [hW]; exact hx) (by rw [hH]; exact hy)
      rw [show ((gx.setContent (Int.ofNat x) (Int.ofNat y)
          (CellContent.Number (gx.countMinesAround (Int.ofNat x) (Int.ofNat y)))).cellAt
          (Int.ofNat x) (Int.ofNat y))
        = { gx.cellAt (Int.ofNat x) (Int.ofNat y) with
            content := CellContent.Number
              (gx.countMinesAround (Int.ofNat x) (Int.ofNat y)) } from
        cellAt_setCell_self gx _ _ _ hWF hin]
      show CellContent.Number (gx.countMinesAround (Int.ofNat x) (Int.ofNat y)) = _
      rw [hcnt]

theorem computeNumbers_correct (g0 : Game) (hWF : g0.WF) :
    (g0.computeNumbers.WF ∧ g0.computeNumbers.W = g0.W ∧ g0.computeNumbers.H = g0.H
      ∧ ∀ a b : Int, (g0.computeNumbers.cellAt a b).content.isMine
          = (g0.cellAt a b).content.isMine)
    ∧ ∀ x y : Nat, x < g0.W → y < g0.H →
        (g0.cellAt (Int.ofNat x) (Int.ofNat y)).content.isMine = false →
        (g0.computeNumbers.cellAt (Int.ofNat x) (Int.ofNat y)).content
          = CellContent.Number (g0.countMinesAround (Int.ofNat x) (Int.ofNat y)) := by
  have hPin : ∀ (y : Nat) (gx : Game) (x : Nat) (g3 : Game),
      (gx.WF ∧ gx.W = g0.W ∧ gx.H = g0.H
        ∧ ∀ a b : Int, (gx.cellAt a b).content.isMine = (g0.cellAt a b).content.isMine) →
      g3 = (if (gx.cellAt (Int.ofNat x) (Int.ofNat y)).content.isMine = true then gx
        else gx.setContent (Int.ofNat x) (Int.ofNat y)
          (CellContent.Number (gx.countMinesAround (Int.ofNat x) (Int.ofNat y)))) →
      (g3.WF ∧ g3.W = g0.W ∧ g3.H = g0.H
        ∧ ∀ a b : Int, (g3.cellAt a b).content.isMine = (g0.cellAt a b).content.isMine) := by
    intro y gx x g3 hp hg3
    subst hg3
    exact (computeStep g0 gx x y hp.1 hp.2.1 hp.2.2.1 hp.2.2.2).1
  have hmain := foldl_establish
    (fun g2 => g2.WF ∧ g2.W = g0.W ∧ g2.H = g0.H
      ∧ ∀ a b : Int, (g2.cellAt a b).content.isMine = (g0.cellAt a b).content.isMine)
    (fun g2 (y : Nat) => ∀ x : Nat, x < g0.W → y < g0.H →
      (g0.cellAt (Int.ofNat x) (Int.ofNat y)).content.isMine = false →
      (g2.cellAt (Int.ofNat x) (Int.ofNat y)).content
        = CellContent.Number (g0.countMinesAround (Int.ofNat x) (Int.ofNat y)))
    (fun gy (y : Nat) => (List.range g0.W).foldl (fun gx (x : Nat) =>
      if (gx.cellAt (Int.ofNat x) (Int.ofNat y)).content.isMine = true then gx
      else gx.setContent (Int.ofNat x) (Int.ofNat y)
        (CellContent.Number (gx.countMinesAround (Int.ofNat x) (Int.ofNat y)))) gy)
    (fun gy y hp => foldl_preserve _ _ (fun gx x hp2 => hPin y gx x _ hp2 rfl)
      (List.range g0.W) gy hp)
    (fun gy y y2 hp hc => foldl_keep _
      (fun g2 => ∀ x : Nat, x < g0.W → y2 < g0.H →
        (g0.cellAt (Int.ofNat x) (Int.ofNat y2)).content.isMine = false →
        (g2.cellAt (Int.ofNat x) (Int.ofNat y2)).content
          = CellContent.Number (g0.countMinesAround (Int.ofNat x) (Int.ofNat y2))) _
      (fun gx x hp2 => hPin y gx x _ hp2 rfl)
      (fun gx x hp2 hc2 x2 hx2 hy2 hm0 =>
        (computeStep g0 gx x y hp2.1 hp2.2.1 hp2.2.2.1 hp2.2.2.2).2.1 x2 y2
          (hc2 x2 hx2 hy2 hm0))
      (List.range g0.W) gy hp hc)
    (fun gy y hp => by
      have h2 := foldl_establish
        (fun g2 => g2.WF ∧ g2.W = g0.W ∧ g2.H = g0.H
          ∧ ∀ a b : Int, (g2.cellAt a b).content.isMine = (g0.cellAt a b).content.isMine)
        (fun g2 (x : Nat) => x < g0.W → y < g0.H →
          (g0.cellAt (Int.ofNat x) (Int.ofNat y)).content.isMine = false →
          (g2.cellAt (Int.ofNat x) (Int.ofNat y)).content
            = CellContent.Number (g0.countMinesAround (Int.ofNat x) (Int.ofNat y)))
        (fun gx (x : Nat) =>
          if (gx.cellAt (Int.ofNat x) (Int.ofNat y)).content.isMine = true then gx
          else gx.setContent (Int.ofNat x) (Int.ofNat y)
            (CellContent.Number (gx.countMinesAround (Int.ofNat x) (Int.ofNat y))))
        (fun gx x hp2 => hPin y gx x _ hp2 rfl)
        (fun gx x x2 hp2 hc2 hx2 hy2 hm0 =>
          (computeStep g0 gx x y hp2.1 hp2.2.1 hp2.2.2.1 hp2.2.2.2).2.1 x2 y
            (hc2 hx2 hy2 hm0))
        (fun gx x hp2 hx hy hm0 =>
          (computeStep g0 gx x y hp2.1 hp2.2.1 hp2.2.2.1 hp2.2.2.2).2.2 hx hy hm0)
        (List.range g0.W) gy hp
      intro x hx hy hm0
      exact h2.2 x (List.mem_range.mpr hx) hx hy hm0)
    (List.range g0.H) g0 ⟨hWF, rfl, rfl, fun a b => rfl⟩
  exact ⟨hmain.1, fun x y hx hy hm0 =>
    hmain.2 y (List.mem_range.mpr hy) x hx hy hm0⟩

theorem computeNumbers_mineCount (g0 : Game) :
    g0.computeNumbers.mineCount = g0.mineCount := by
  unfold Game.computeNumbers
  refine foldl_preserve (fun g2 => g2.mineCount = g0.mineCount) _ ?_ (List.range g0.H) g0 rfl
  intro gy y hgy
  refine foldl_preserve (fun g2 => g2.mineCount = g0.mineCount) _ ?_ (List.range g0.W) gy hgy
  intro gx x hgx
  split
  · exact hgx
  · rename_i hmine
    rw [mineCount_setNumber gx _ _ _ (by simpa using hmine)]
    exact hgx

/-- C2: whenever a `generate(safeX, safeY)` run completes its mine-placement
loop (the returned `placed` counter equals `MINES`), the generated board has
exactly `MINES` mine cells, no mine inside the 3x3 safe zone, and every
in-bounds non-mine cell stores exactly the number of mine cells among its
up-to-8 in-bounds neighbours (`countMinesAround`, shown equal to the direct
neighbour scan `specNeighborMines`). -/
theorem claim2_generate (g : Game) (rs : List (Nat × Nat)) (safeX safeY : Int)
    (hWF : g.WF) (hmines : g.MINES + 9 < g.W * g.H)
    (hcomplete : (placeMines g.clearContent safeX safeY 0 rs).2 = g.MINES) :
    (g.generate rs safeX safeY).mineCount = g.MINES
    ∧ (∀ a b : Int, g.inBounds a b = true → inSafeZone safeX safeY a b →
        ((g.generate rs safeX safeY).cellAt a b).content.isMine = false)
    ∧ (∀ a b : Int, g.inBounds a b = true →
        ((g.generate rs safeX safeY).cellAt a b).content.isMine = false →
        ((g.generate rs safeX safeY).cellAt a b).content
          = CellContent.Number ((g.generate rs safeX safeY).countMinesAround a b))
    ∧ ∀ a b : Int, (g.generate rs safeX safeY).countMinesAround a b
        = (g.generate rs safeX safeY).specNeighborMines a b := by
  have hWH : 0 < g.W * g.H := by omega
  have hW : 0 < g.W := by
    rcases Nat.eq_zero_or_pos g.W with h | h
    · rw [h] at hWH
      simp at hWH
    · exact h
  have hH : 0 < g.H := by
    rcases Nat.eq_zero_or_pos g.H with h | h
    · rw [h] at hWH
      simp at hWH
    · exact h
  have hWFc := clearContent_WF g hWF
  have hWFp : (placeMines g.clearContent safeX safeY 0 rs).1.WF :=
    placeMines_WF safeX safeY rs g.clearContent 0 hWFc
  have hscalP := scalEq_placeMines safeX safeY rs g.clearContent 0
  have hcn := computeNumbers_correct (placeMines g.clearContent safeX safeY 0 rs).1 hWFp
  have hgen : g.generate rs safeX safeY
      = (placeMines g.clearContent safeX safeY 0 rs).1.computeNumbers := rfl
  have hWp : (placeMines g.clearContent safeX safeY 0 rs).1.W = g.W := hscalP.1
  have hHp : (placeMines g.clearContent safeX safeY 0 rs).1.H = g.H := hscalP.2.1
  refine ⟨?_, ?_, ?_, ?_⟩
  · rw [hgen, computeNumbers_mineCount]
    have hcount := placeMines_count safeX safeY rs g.clearContent 0 hWFc
      (by exact hW) (by exact hH)
    rw [mineCount_clearContent, hcomplete] at hcount
    omega
  · intro a b hin hsz
    rw [hgen, hcn.1.2.2.2 a b]
    rw [placeMines_safe safeX safeY rs g.clearContent 0 a b (by exact hin) hsz]
    rw [clearContent_content g a b]
    rfl
  · intro a b hin hm
    rw [hgen] at hm ⊢
    obtain ⟨h0a, haw, h0b, hbh⟩ := inBounds_elim g a b hin
    have hca : Int.ofNat a.toNat = a := by
      rw [Int.ofNat_eq_natCast]
      omega
    have hcb : Int.ofNat b.toNat = b := by
      rw [Int.ofNat_eq_natCast]
      omega
    have hmp : ((placeMines g.clearContent safeX safeY 0 rs).1.cellAt a b).content.isMine
        = false := by
      rw [← hcn.1.2.2.2 a b]
      exact hm
    have hnum := hcn.2 a.toNat b.toNat (by rw [hWp]; omega) (by rw [hHp]; omega)
      (by rw [hca, hcb]; exact hmp)
    rw [hca, hcb] at hnum
    rw [hnum]
    rw [countMinesAround_congr (placeMines g.clearContent safeX safeY 0 rs).1
      ((placeMines g.clearContent safeX safeY 0 rs).1.computeNumbers)
      hcn.1.2.1 hcn.1.2.2.1 hcn.1.2.2.2 a b]
  · intro a b
    exact countMinesAround_eq_spec _ a b

theorem claim2_witness :
    ((mkGame 4 3 1).generate [(3, 2)] 0 0).mineCount = (mkGame 4 3 1).MINES :=
  (claim2_generate (mkGame 4 3 1) [(3, 2)] 0 0 (by decide) (by decide) (by decide)).1

/-! ### First-click behaviour: timer start and one-shot generation -/

theorem startTimer_running (g : Game) : g.startTimerIfNeeded.timerRunning = true := by
  unfold Game.startTimerIfNeeded
  split
  · rename_i h
    exact h
  · rfl

theorem startTimer_zero (g : Game) (h : g.timerRunning = false) :
    g.startTimerIfNeeded.timeElapsed = 0 := by
  unfold Game.startTimerIfNeeded
  split
  · rename_i h2
    rw [h] at h2
    exact Bool.noConfusion h2
  · rfl

theorem startTimer_cellAt (g : Game) (a b : Int) :
    g.startTimerIfNeeded.cellAt a b = g.cellAt a b := by
  unfold Game.startTimerIfNeeded
  split
  · rfl
  · rfl

theorem startTimer_inBounds (g : Game) (a b : Int) :
    g.startTimerIfNeeded.inBounds a b = g.inBounds a b := by
  unfold Game.startTimerIfNeeded
  split
  · rfl
  · rfl

theorem startTimer_WF (g : Game) (hWF : g.WF) : g.startTimerIfNeeded.WF := by
  unfold Game.startTimerIfNeeded
  split
  · exact hWF
  · exact hWF

theorem content_revealAll (g : Game) (a b : Int) :
    (g.revealAll.cellAt a b).content = (g.cellAt a b).content := by
  show (((g.field.map (fun row => row.map (fun c => { c with state := CellState.Opened }))).getD
      b.toNat []).getD a.toNat initialCell).content = (g.cellAt a b).content
  rw [content_mapGrid g.field (fun c => { c with state := CellState.Opened }) a b
    (fun c => rfl)]
  rfl

theorem content_triggerExplosion (g : Game) (a b : Int) :
    (g.triggerExplosion.cellAt a b).content = (g.cellAt a b).content := by
  have h : g.triggerExplosion.cellAt a b
      = (({ g with explosion := true, explosionTimer := (1 : Rat) / 5 } : Game).revealAll).cellAt
          a b :=
    cellAt_congr_field _ _ a b rfl
  rw [h, content_revealAll]
  rfl

theorem triggerExplosion_scal (g : Game) :
    g.triggerExplosion.firstClick = g.firstClick
    ∧ g.triggerExplosion.timeElapsed = g.timeElapsed
    ∧ g.triggerExplosion.gameOver = true
    ∧ g.triggerExplosion.timerRunning = false
    ∧ g.triggerExplosion.win = g.win :=
  ⟨rfl, rfl, rfl, rfl, rfl⟩

theorem floodFill_ext (g : Game) (x y : Int) : Ext g (g.floodFill x y) :=
  floodFillAux_ext (g.W * g.H + 1) g x y

/-- Everything an accepted reveal does after the (possible) generation step:
`firstClick`, `timeElapsed` and cell contents are untouched, and the timer
stays running whenever the call ends neither lost nor won. -/
theorem reveal_result_shape (g1 : Game) (x y : Int) (r : Game)
    (hr : r = (g1.setState x y CellState.Opened).triggerExplosion
      ∨ r = (if (g1.cellAt x y).content.isEmpty = true
          then (g1.setState x y CellState.Opened).floodFill x y
          else g1.setState x y CellState.Opened).checkWin) :
    r.firstClick = g1.firstClick ∧ r.timeElapsed = g1.timeElapsed
    ∧ (∀ a b : Int, (r.cellAt a b).content = (g1.cellAt a b).content)
    ∧ (r.gameOver = false → r.win = false → g1.timerRunning = true →
        r.timerRunning = true) := by
  rcases hr with hr | hr
  · subst hr
    refine ⟨rfl, rfl, ?_, ?_⟩
    · intro a b
      exact (content_triggerExplosion _ a b).trans (content_setState g1 x y _ a b)
    · intro hgo2 _ _
      exact Bool.noConfusion (show (true : Bool) = false from hgo2)
  · subst hr
    have hgm : ∀ gm : Game,
        gm = (if (g1.cellAt x y).content.isEmpty = true
          then (g1.setState x y CellState.Opened).floodFill x y
          else g1.setState x y CellState.Opened) →
        gm.firstClick = g1.firstClick ∧ gm.timeElapsed = g1.timeElapsed
        ∧ gm.timerRunning = g1.timerRunning
        ∧ ∀ a b : Int, (gm.cellAt a b).content = (g1.cellAt a b).content := by
      intro gm hgmeq
      by_cases he : (g1.cellAt x y).content.isEmpty = true
      · rw [if_pos he] at hgmeq
        subst hgmeq
        have hext := floodFill_ext (g1.setState x y CellState.Opened) x y
        refine ⟨hext.scal.2.2.2.2.2.1, hext.scal.2.2.2.2.2.2.2.2.2,
          hext.scal.2.2.2.2.2.2.2.2.1, ?_⟩
        intro a b
        exact (hext.content a b).trans (content_setState g1 x y _ a b)
      · rw [if_neg he] at hgmeq
        subst hgmeq
        exact ⟨rfl, rfl, rfl, fun a b => content_setState g1 x y _ a b⟩
    obtain ⟨hfc, hte, htr, hct⟩ := hgm _ rfl
    refine ⟨((checkWin_fields _).2.2.2.2.2.1).trans hfc,
      ((checkWin_fields _).2.2.2.2.2.2.2.2).trans hte, ?_, ?_⟩
    · intro a b
      rw [checkWin_cellAt]
      exact hct a b
    · intro hgo2 hwin2 htr1
      rcases checkWin_shape (if (g1.cellAt x y).content.isEmpty = true
          then (g1.setState x y CellState.Opened).floodFill x y
          else g1.setState x y CellState.Opened) with hsh | hsh
      · rw [hsh, htr, htr1]
      · rw [hsh] at hwin2
        exact Bool.noConfusion (show (true : Bool) = false from hwin2)

/-- C9: a reveal accepted on a non-terminal session and a Closed, unflagged
cell is gated by the first-click flag.  On a first click the board is
generated with the clicked coordinate as the safe centre (the resulting
contents are exactly `generate`'s contents), the flag is consumed, the timer
is (re)started from zero and keeps running unless the very same click ends the
game; on any later reveal the flag stays consumed and no cell content changes,
so the board is never regenerated. -/
theorem claim9_first_click (g : Game) (rs : List (Nat × Nat)) (x y : Int)
    (hgo : g.gameOver = false) (hwin : g.win = false)
    (hcl : (g.cellAt x y).state = CellState.Closed) :
    (g.firstClick = true →
      (g.revealFromState rs x y).firstClick = false
      ∧ (∀ a b : Int, ((g.revealFromState rs x y).cellAt a b).content
          = ((g.generate rs x y).cellAt a b).content)
      ∧ (g.timerRunning = false → (g.revealFromState rs x y).timeElapsed = 0)
      ∧ ((g.revealFromState rs x y).gameOver = false →
          (g.revealFromState rs x y).win = false →
          (g.revealFromState rs x y).timerRunning = true))
    ∧ (g.firstClick = false →
      (g.revealFromState rs x y).firstClick = false
      ∧ ∀ a b : Int, ((g.revealFromState rs x y).cellAt a b).content
          = (g.cellAt a b).content) := by
  have hno : ((g.cellAt x y).state.isOpen || (g.cellAt x y).state.isFlagged) = false := by
    rw [hcl]
    rfl
  obtain ⟨g1, hg1, hdisj⟩ := reveal_cases g rs x y hgo hwin hno
  have hshape := reveal_result_shape g1 x y (g.revealFromState rs x y)
    (hdisj.elim (fun h => Or.inl h.2) (fun h => Or.inr h.2))
  constructor
  · intro hfc
    rw [hfc, if_pos rfl] at hg1
    refine ⟨?_, ?_, ?_, ?_⟩
    · rw [hshape.1, hg1, (startTimer_keep _).2.2]
    · intro a b
      rw [hshape.2.2.1 a b, hg1, startTimer_cellAt]
      rfl
    · intro ht
      rw [hshape.2.1, hg1]
      refine startTimer_zero _ ?_
      show (g.generate rs x y).timerRunning = false
      rw [(scalEq_generate g rs x y).2.2.2.2.2.2.2.2.1, ht]
    · intro h1 h2
      refine hshape.2.2.2 h1 h2 ?_
      rw [hg1]
      exact startTimer_running _
  · intro hfc
    rw [hfc, if_neg (fun h => Bool.noConfusion h)] at hg1
    exact ⟨(hshape.1).trans (by rw [hg1, hfc]),
      fun a b => (hshape.2.2.1 a b).trans (by rw [hg1])⟩

theorem claim9_witness :
    ((mkGame 4 3 1).revealFromState [(3, 2)] 0 0).firstClick = false :=
  ((claim9_first_click (mkGame 4 3 1) [(3, 2)] 0 0 (by decide) (by decide)
    (by decide)).1 rfl).1

/-! ### First reveal safety: states through generation, safe-zone mines -/

theorem state_setContent (g : Game) (x y : Int) (cc : CellContent) (a b : Int) :
    ((g.setContent x y cc).cellAt a b).state = (g.cellAt a b).state := by
  unfold Game.setContent
  rw [cellAt_setCell]
  split
  · rename_i hh
    show (g.cellAt x y).state = (g.cellAt a b).state
    rw [cellAt_toNat g x y a b hh.1 hh.2.1]
  · rfl

theorem state_mapGrid (f : List (List Cell)) (upd : Cell → Cell) (a b : Int)
    (hupd : ∀ c, (upd c).state = c.state) :
    (((f.map (fun row => row.map upd)).getD b.toNat []).getD a.toNat initialCell).state
      = ((f.getD b.toNat []).getD a.toNat initialCell).state := by
  by_cases hj : b.toNat < f.length
  · rw [getD_map f _ b.toNat [] [] hj]
    by_cases hi : a.toNat < (f.getD b.toNat []).length
    · rw [getD_map _ upd a.toNat initialCell initialCell hi, hupd]
    · have h1 : ((f.getD b.toNat []).map upd).length ≤ a.toNat := by
        rw [List.length_map]
        omega
      rw [getD_oob _ _ _ h1, getD_oob (f.getD b.toNat []) a.toNat initialCell (by omega)]
  · have h1 : (f.map (fun row => row.map upd)).length ≤ b.toNat := by
      rw [List.length_map]
      omega
    rw [getD_oob _ _ _ h1, getD_oob f b.toNat [] (by omega)]

theorem state_clearContent (g : Game) (a b : Int) :
    (g.clearContent.cellAt a b).state = (g.cellAt a b).state := by
  show (((g.field.map (fun row =>
      row.map (fun c => { c with content := CellContent.Number 0 }))).getD
      b.toNat []).getD a.toNat initialCell).state = (g.cellAt a b).state
  rw [state_mapGrid g.field (fun c => { c with content := CellContent.Number 0 }) a b
    (fun c => rfl)]
  rfl

theorem state_placeMines (sx sy : Int) :
    ∀ (rs : List (Nat × Nat)) (g : Game) (p : Nat) (a b : Int),
      ((placeMines g sx sy p rs).1.cellAt a b).state = (g.cellAt a b).state := by
  intro rs
  induction rs with
  | nil =>
    intro g p a b
    rfl
  | cons r rs ih =>
    intro g p a b
    show ((placeMines g sx sy p (r :: rs)).1.cellAt a b).state = _
    unfold placeMines
    split
    · split
      · exact ih g p a b
      · split
        · exact ih g p a b
        · exact (ih _ (p + 1) a b).trans (state_setContent g _ _ _ a b)
    · rfl

theorem state_computeNumbers (g0 : Game) :
    ∀ a b : Int, (g0.computeNumbers.cellAt a b).state = (g0.cellAt a b).state := by
  unfold Game.computeNumbers
  refine foldl_preserve (fun g2 => ∀ a b : Int, (g2.cellAt a b).state = (g0.cellAt a b).state)
    _ ?_ (List.range g0.H) g0 (fun _ _ => rfl)
  intro gy y hgy
  refine foldl_preserve (fun g2 => ∀ a b : Int, (g2.cellAt a b).state = (g0.cellAt a b).state)
    _ ?_ (List.range g0.W) gy hgy
  intro gx x hgx
  split
  · exact hgx
  · intro a b
    exact (state_setContent gx _ _ _ a b).trans (hgx a b)

theorem state_generate (g : Game) (rs : List (Nat × Nat)) (sx sy : Int) (a b : Int) :
    ((g.generate rs sx sy).cellAt a b).state = (g.cellAt a b).state :=
  (state_computeNumbers _ a b).trans ((state_placeMines sx sy rs g.clearContent 0 a b).trans
    (state_clearContent g a b))

theorem generate_WF (g : Game) (rs : List (Nat × Nat)) (sx sy : Int) (hWF : g.WF) :
    (g.generate rs sx sy).WF :=
  (computeNumbers_correct (placeMines g.clearContent sx sy 0 rs).1
    (placeMines_WF sx sy rs g.clearContent 0 (clearContent_WF g hWF))).1.1

theorem generate_safe (g : Game) (rs : List (Nat × Nat)) (sx sy : Int) (hWF : g.WF)
    (a b : Int) (hin : g.inBounds a b = true) (hsz : inSafeZone sx sy a b) :
    ((g.generate rs sx sy).cellAt a b).content.isMine = false := by
  have hWFp := placeMines_WF sx sy rs g.clearContent 0 (clearContent_WF g hWF)
  have h1 := (computeNumbers_correct (placeMines g.clearContent sx sy 0 rs).1 hWFp).1.2.2.2 a b
  show ((placeMines g.clearContent sx sy 0 rs).1.computeNumbers.cellAt a b).content.isMine = false
  rw [h1, placeMines_safe sx sy rs g.clearContent 0 a b
    (show g.clearContent.inBounds a b = true from hin) hsz, clearContent_content]
  rfl

theorem inBounds_scalEq {g r : Game} (h : ScalEq g r) (a b : Int) :
    r.inBounds a b = g.inBounds a b := by
  unfold Game.inBounds
  rw [h.1, h.2.1]

theorem getD_replicate {α : Type} (n i : Nat) (x d : α) :
    (List.replicate n x).getD i d = if i < n then x else d := by
  rw [List.getD_eq_getElem?_getD, List.getElem?_replicate]
  by_cases h : i < n
  · rw [if_pos h, if_pos h]
    rfl
  · rw [if_neg h, if_neg h]
    rfl

theorem cellAt_mkGame (w h m : Nat) (a b : Int) :
    (mkGame w h m).cellAt a b = initialCell := by
  show ((List.replicate h (List.replicate w initialCell)).getD b.toNat []).getD a.toNat
      initialCell = initialCell
  rw [getD_replicate]
  by_cases hb : b.toNat < h
  · rw [if_pos hb, getD_replicate]
    split
    · rfl
    · rfl
  · rw [if_neg hb]
    rfl

/-- C10: on a well-formed fresh session (non-terminal, first click still
pending, every in-bounds cell unopened) with `MINES + 9 < W * H`, the first
accepted reveal at an in-bounds Closed cell never loses: the call leaves
`gameOver` false, the clicked cell is not a mine (it sits in the generated
safe zone), and every in-bounds cell that is open afterwards is a non-mine
cell. -/
theorem claim10_first_reveal_safe (g : Game) (rs : List (Nat × Nat)) (x y : Int)
    (hWF : g.WF) (hgo : g.gameOver = false) (hwin : g.win = false)
    (hfc : g.firstClick = true) (hmines : g.MINES + 9 < g.W * g.H)
    (hin : g.inBounds x y = true)
    (hcl : (g.cellAt x y).state = CellState.Closed)
    (hfresh : ∀ a b : Int, g.inBounds a b = true →
      (g.cellAt a b).state.isOpen = false) :
    (g.revealFromState rs x y).gameOver = false
    ∧ ((g.revealFromState rs x y).cellAt x y).content.isMine = false
    ∧ ∀ a b : Int, g.inBounds a b = true →
        ((g.revealFromState rs x y).cellAt a b).state.isOpen = true →
        ((g.revealFromState rs x y).cellAt a b).content.isMine = false := by
  have hno : ((g.cellAt x y).state.isOpen || (g.cellAt x y).state.isFlagged) = false := by
    rw [hcl]
    rfl
  obtain ⟨g1, hg1, hdisj⟩ := reveal_cases g rs x y hgo hwin hno
  rw [hfc, if_pos rfl] at hg1
  have hg1WF : g1.WF := by
    rw [hg1]
    exact startTimer_WF _ (generate_WF g rs x y hWF)
  have hg1in : ∀ a b : Int, g1.inBounds a b = g.inBounds a b := by
    intro a b
    rw [hg1, startTimer_inBounds]
    exact inBounds_scalEq (scalEq_generate g rs x y) a b
  have hg1state : ∀ a b : Int, (g1.cellAt a b).state = (g.cellAt a b).state := by
    intro a b
    rw [hg1, startTimer_cellAt]
    exact state_generate g rs x y a b
  have hg1mine : (g1.cellAt x y).content.isMine = false := by
    rw [hg1, startTimer_cellAt]
    exact generate_safe g rs x y hWF x y hin ⟨by simp, by simp⟩
  have hg1go : g1.gameOver = false := by
    rw [hg1, (startTimer_keep _).2.1]
    show (g.generate rs x y).gameOver = false
    rw [(scalEq_generate g rs x y).2.2.2.1, hgo]
  rcases hdisj with ⟨hm, _⟩ | ⟨hm, hr⟩
  · rw [hg1mine] at hm
    exact absurd hm (by simp)
  · have hg2WF : (g1.setState x y CellState.Opened).WF := WF_setCell g1 x y _ hg1WF
    have hg2mine : ∀ a b : Int,
        ((g1.setState x y CellState.Opened).cellAt a b).content.isMine
          = (g1.cellAt a b).content.isMine := by
      intro a b
      rw [content_setState g1 x y _ a b]
    have hopen_g1 : ∀ a b : Int, g.inBounds a b = true →
        ((g1.setState x y CellState.Opened).cellAt a b).state.isOpen = true →
        (g1.cellAt a b).content.isMine = false := by
      intro a b hinab hopen2
      by_cases hne : x.toNat = a.toNat ∧ y.toNat = b.toNat
      · obtain ⟨hae, hbe⟩ := inBounds_toNat_inj g x y a b hin hinab hne.1 hne.2
        rw [← hae, ← hbe]
        exact hg1mine
      · rw [cellAt_setState_of_ne g1 x y a b _ hne] at hopen2
        rw [hg1state a b, hfresh a b hinab] at hopen2
        exact absurd hopen2 (by simp)
    by_cases he : (g1.cellAt x y).content.isEmpty = true
    · rw [if_pos he] at hr
      have hff := floodFill_opens (g1.setState x y CellState.Opened) x y hg2WF
      have hext := hff.1
      refine ⟨?_, ?_, ?_⟩
      · rw [hr, (checkWin_fields _).2.2.2.2.1, hext.scal.2.2.2.1]
        exact hg1go
      · rw [hr, checkWin_cellAt, hext.content x y, content_setState g1 x y _ x y]
        exact hg1mine
      · intro a b hinab hropen
        rw [hr, checkWin_cellAt] at hropen
        rw [hr, checkWin_cellAt, hext.content a b, content_setState g1 x y _ a b]
        have hg2in : (g1.setState x y CellState.Opened).inBounds a b = true := by
          rw [show (g1.setState x y CellState.Opened).inBounds a b = g1.inBounds a b from rfl,
            hg1in a b]
          exact hinab
        rcases (hff.2 a b hg2in).mp hropen with hopen2 | hreach
        · exact hopen_g1 a b hinab hopen2
        · obtain ⟨-, -, -, hm4⟩ := openableB_elim _ a b (Reach_openable hreach)
          rw [hg2mine a b] at hm4
          exact hm4
    · rw [if_neg he] at hr
      refine ⟨?_, ?_, ?_⟩
      · rw [hr, (checkWin_fields _).2.2.2.2.1]
        exact hg1go
      · rw [hr, checkWin_cellAt, content_setState g1 x y _ x y]
        exact hg1mine
      · intro a b hinab hropen
        rw [hr, checkWin_cellAt] at hropen
        rw [hr, checkWin_cellAt, content_setState g1 x y _ a b]
        exact hopen_g1 a b hinab hropen

theorem claim10_witness :
    ((mkGame 4 3 1).revealFromState [(3, 2)] 0 0).gameOver = false :=
  (claim10_first_reveal_safe (mkGame 4 3 1) [(3, 2)] 0 0 (by decide) (by decide)
    (by decide) (by decide) (by decide) (by decide) (by decide)
    (fun a b _ => by rw [cellAt_mkGame]; rfl)).1

end Sapper
